import Mathlib

/-!
WebModules.ModuleManager

A shallow embedding of `src/lib/ModuleManager.js`: the list of module
descriptions, `register` / `configureModule`, and the catch-all request handler
installed by `configureFrontController`.

Modelling conventions.

* JavaScript strings are Lean strings, compared through their character lists.
* A module is an external object.  Its accessors `getContextPath()` and
  `getServerType()` are pure field reads.  Its `init(handler)` is foreign code:
  it may call the manager's public `register` any number of times (lines
  128-131), and it ends by returning or by throwing.  What one `init` call does
  is an `InitRun`; which `InitRun` a call performs is decided by the environment
  (`InitBehaviour`), which sees every event observed up to the call.  The module
  list itself is private to the manager, so `register` is the only way `init`
  can change it; `init` is assumed not to dispatch a request into the Express
  application by hand.
* The observable effects (`LOG.info`, `module.init`, `next`) are appended, in
  chronological order, to a trace carried by the state.
* A JavaScript exception aborts the running function and leaves the mutations
  made so far in place, so every operation returns the state it reached together
  with how it completed.
* The `for` loop of the front controller re-reads the length of the list at
  every iteration, so it also visits descriptions appended while it runs and need
  not terminate.  It is given a number of iterations it may perform; when they
  are used up it reports the state reached and no completion.
-/

namespace WebModules

/-! ## Data model -/

namespace ServerType

/-- Line 21: `WEB_SOCKET: "websocket"`. -/
def WEB_SOCKET : String := "websocket"

/-- Line 26: `EXPRESS: "express"`. -/
def EXPRESS : String := "express"

end ServerType

/-- A module as the manager sees it: the object's identity and what its two
accessors return. -/
structure Module where
  id : Nat
  contextPath : String
  serverType : String
deriving DecidableEq, Repr

/-- The request handler object handed to `module.init`:
`new WebModules.ExpressRequestHandler(app)` (line 76) or
`new WebModules.WebSocketRequestHandler(websocket)` (line 100). -/
inductive RequestHandler where
  | express
  | webSocket
deriving DecidableEq, Repr

/-- A value thrown out of the manager's code. -/
inductive Thrown where
  /-- Calling a method on `null` (line 129 with `module == null`). -/
  | typeError
  /-- Whatever `module.init` threw. -/
  | initError (module : Module)
deriving DecidableEq, Repr

/-- Observable effects, in the order they happen. -/
inductive Event where
  /-- `LOG.info(msg)`. -/
  | log (msg : String)
  /-- `module.init(handler)` was invoked. -/
  | init (module : Module) (handler : RequestHandler)
  /-- `next(arg)` was invoked; `next()` is `next none`. -/
  | next (arg : Option Thrown)
deriving DecidableEq, Repr

/-- How a call completed. -/
inductive Completion where
  | returned
  | threw (e : Thrown)
deriving DecidableEq, Repr

/-- An element of `modulesDescriptions` (lines 93-96). -/
structure ModuleDescription where
  initialized : Bool
  module : Module
deriving DecidableEq, Repr

/-- The manager's mutable state (line 54) together with the trace of effects. -/
structure State where
  modulesDescriptions : List ModuleDescription
  trace : List Event
deriving DecidableEq, Repr

/-- Line 54: `var modulesDescriptions = [];`. -/
def State.empty : State := ⟨[], []⟩

/-- What one call of `module.init(handler)` does, as far as the manager is
concerned.  `done throws`: the call ends, by throwing when `throws` is true.
`register module nested rest`: the call invokes the manager's
`register(module)`, during which, if `module` is a web socket module, its `init`
runs as `nested`; whatever came of that, the call then goes on as `rest`. -/
inductive InitRun where
  | done (throws : Bool)
  | register (module : Module) (nested : InitRun) (rest : InitRun)
deriving DecidableEq, Repr

/-- The effect of a call `module.init(handler)` made in a given state: the state
it leaves, and whether it threw. -/
abbrev InitEffect := Module → RequestHandler → State → State × Bool

/-- The environment's answer to "what does this `init` call do?", given the
events observed up to and including the call itself. -/
abbrev InitBehaviour := List Event → Module → RequestHandler → InitRun

/-! ## `String.prototype.indexOf` -/

/-- Search for the first occurrence of `search` in `s`, where `s` is the part of
the subject string that starts at index `k`; `-1` when there is none. -/
def indexOfFrom (search : List Char) : List Char → Nat → Int
  | [], k => if search.isPrefixOf [] then (k : Int) else -1
  | c :: t, k => if search.isPrefixOf (c :: t) then (k : Int) else indexOfFrom search t (k + 1)

/-- The expression `s.indexOf(search)`. -/
def indexOf (s search : String) : Int := indexOfFrom search.data s.data 0

/-- The test of line 73: `path.indexOf(contextPath) === 0`. -/
def matchesPath (path : String) (d : ModuleDescription) : Bool :=
  decide (indexOf path d.module.contextPath = 0)

/-! ## Registration (lines 90-103 and 128-131) -/

/-- Lines 90-103.  `init` is the effect of `module.init`. -/
def configureModule (init : InitEffect) (module : Module) (s : State) :
    State × Completion :=
  let mds := s.modulesDescriptions ++ [{ initialized := false, module := module }]
  if module.serverType = ServerType.WEB_SOCKET then
    let r := init module RequestHandler.webSocket
      ⟨mds, s.trace ++ [Event.init module RequestHandler.webSocket]⟩
    if r.2 then (r.1, Completion.threw (Thrown.initError module))
    else (r.1, Completion.returned)
  else
    (⟨mds, s.trace⟩, Completion.returned)

/-- Lines 128-131; `none` is `null`. -/
def register (init : InitEffect) (module : Option Module) (s : State) :
    State × Completion :=
  match module with
  | none => (s, Completion.threw Thrown.typeError)
  | some m =>
    configureModule init m
      { s with trace := s.trace ++ [Event.log ("Registering module " ++ m.contextPath)] }

/-- Carrying out an `init` call: each `register` it makes is the manager's own
`register`, with the nested `init` of a web socket module behaving as
prescribed. -/
def InitRun.run : InitRun → State → State × Bool
  | InitRun.done throws, s => (s, throws)
  | InitRun.register m nested rest, s =>
    rest.run (WebModules.register (fun _ _ => nested.run) (some m) s).1

/-- The effect of `init` calls in the environment `env`. -/
def effect (env : InitBehaviour) : InitEffect :=
  fun m h s => (env s.trace m h).run s

/-! ## The front controller (lines 60-83) -/

/-- The body of the `for` loop (lines 68-78) at index `i`, where
`moduleDescription = modulesDescriptions[i]` is `d`.  When `init` throws, the
assignment of line 77 is not reached. -/
def configureFrontController.visit (init : InitEffect) (path : String) (i : Nat)
    (d : ModuleDescription) (s : State) : State × Option Thrown :=
  if matchesPath path d && !d.initialized then
    let r := init d.module RequestHandler.express
      ⟨s.modulesDescriptions, s.trace ++ [Event.init d.module RequestHandler.express]⟩
    if r.2 then (r.1, some (Thrown.initError d.module))
    else (⟨r.1.modulesDescriptions.set i { d with initialized := true }, r.1.trace⟩, none)
  else
    (s, none)

/-- The `for` loop of lines 67-79 standing at index `i`, allowed `steps`
evaluations of its condition `i < modulesDescriptions.length`.  The result is
the state reached and, unless the steps ran out, how the loop ended. -/
def configureFrontController.loop (init : InitEffect) (path : String) :
    Nat → Nat → State → State × Option Completion
  | 0, _, s => (s, none)
  | steps + 1, i, s =>
    match s.modulesDescriptions[i]? with
    | none => (s, some Completion.returned)
    | some d =>
      match configureFrontController.visit init path i d s with
      | (s2, some e) => (s2, some (Completion.threw e))
      | (s2, none) => configureFrontController.loop init path steps (i + 1) s2

/-- The handler registered by `app.all("*", ...)` (lines 61-82), applied to a
request whose `req.route.params[0]` is `path`, its loop being allowed `steps`
iterations. -/
def configureFrontController.handler (init : InitEffect) (path : String) (steps : Nat)
    (s : State) : State × Option Completion :=
  match configureFrontController.loop init path steps 0 s with
  | (s2, some Completion.returned) =>
    (⟨s2.modulesDescriptions, s2.trace ++ [Event.next none]⟩, some Completion.returned)
  | r => r

/-! ## Sequences of calls -/

/-- Successive `register` calls, each one starting in the state the previous one
left. -/
def registerAll (init : InitEffect) : List Module → State → State
  | [], s => s
  | m :: ms, s => registerAll init ms (register init (some m) s).1

/-- Successive requests, each handler invocation running before the next one
starts; what became of each is collected in order. -/
def serve (init : InitEffect) (steps : Nat) :
    List String → State → State × List (Option Completion)
  | [], s => (s, [])
  | p :: ps, s =>
    let r := configureFrontController.handler init p steps s
    let r2 := serve init steps ps r.1
    (r2.1, r.2 :: r2.2)

/-! ## Vocabulary for stating what the calls do -/

/-- Number of `init` invocations on `m` recorded in a trace. -/
def initCalls (m : Module) (tr : List Event) : Nat :=
  tr.countP (fun e => match e with
    | Event.init m2 _ => decide (m2 = m)
    | _ => false)

/-- The arguments of the `next` calls recorded in a trace, in order. -/
def nextCalls (tr : List Event) : List (Option Thrown) :=
  tr.filterMap (fun e => match e with
    | Event.next a => some a
    | _ => none)

/-- The modules on which a trace records an `init` call with the Express request
handler, that is, a call made by the front controller (line 76). -/
def expressInits (tr : List Event) : List Module :=
  tr.filterMap (fun e => match e with
    | Event.init m RequestHandler.express => some m
    | _ => none)

/-- The description `d` after a request for `path` that visited it without a
failure: matching descriptions end up initialized, the others are untouched. -/
def activate (path : String) (d : ModuleDescription) : ModuleDescription :=
  if matchesPath path d then { d with initialized := true } else d

/-- The descriptions a request for `path` has to initialize: those that match
and are not initialized yet, in list order. -/
def pending (path : String) (ds : List ModuleDescription) : List ModuleDescription :=
  ds.filter (fun d => matchesPath path d && !d.initialized)

/-- The `init` events of the front controller for the given descriptions. -/
def initEvents (ds : List ModuleDescription) : List Event :=
  ds.map (fun d => Event.init d.module RequestHandler.express)

/-- The descriptions an `init` call appends to the module list, in order. -/
def InitRun.entries : InitRun → List ModuleDescription
  | InitRun.done _ => []
  | InitRun.register m nested rest =>
    ⟨false, m⟩ ::
      ((if m.serverType = ServerType.WEB_SOCKET then nested.entries else []) ++ rest.entries)

/-- The events an `init` call adds to the trace, in order. -/
def InitRun.events : InitRun → List Event
  | InitRun.done _ => []
  | InitRun.register m nested rest =>
    Event.log ("Registering module " ++ m.contextPath) ::
      ((if m.serverType = ServerType.WEB_SOCKET then
          Event.init m RequestHandler.webSocket :: nested.events
        else []) ++ rest.events)

/-- Whether an `init` call ends by throwing. -/
def InitRun.throws : InitRun → Bool
  | InitRun.done t => t
  | InitRun.register _ _ rest => rest.throws

/-- The module `m` is tracked at index `n0`: its description is there with flag
`b`, no other description of the list holds `m`, and the number of `init` calls
on `m` is `c0` when the flag is false and `c0 + 1` when it is true. -/
def Tracked (m : Module) (n0 c0 : Nat) (b : Bool) (s : State) : Prop :=
  s.modulesDescriptions[n0]? = some ⟨b, m⟩ ∧
  (∀ (j : Nat) (d : ModuleDescription), s.modulesDescriptions[j]? = some d →
    d.module = m → j = n0) ∧
  initCalls m s.trace = c0 + (if b = true then 1 else 0)

/-! ## Concrete environments and modules used in the examples -/

/-- An environment in which every `init` returns at once. -/
def neverThrows : InitBehaviour := fun _ _ _ => InitRun.done false

/-- An environment in which every `init` throws at once. -/
def alwaysThrows : InitBehaviour := fun _ _ _ => InitRun.done true

/-- An Express module at `/api`. -/
def apiModule : Module := ⟨0, "/api", ServerType.EXPRESS⟩

/-- An Express module at `/api/v2`. -/
def apiV2Module : Module := ⟨1, "/api/v2", ServerType.EXPRESS⟩

/-- A web socket module at `/ws`. -/
def wsModule : Module := ⟨2, "/ws", ServerType.WEB_SOCKET⟩

/-- An Express module whose context path is the empty string. -/
def rootModule : Module := ⟨3, "", ServerType.EXPRESS⟩

/-- An Express module at `/a/b`. -/
def deepModule : Module := ⟨4, "/a/b", ServerType.EXPRESS⟩

/-- An Express module at `/a`. -/
def shallowModule : Module := ⟨5, "/a", ServerType.EXPRESS⟩

/-- An environment in which the `init` of `/a` throws at once and every other
`init` returns at once. -/
def shallowThrows : InitBehaviour :=
  fun _ m _ => if m = shallowModule then InitRun.done true else InitRun.done false

/-- An environment in which the `init` of `/api` registers `/api/v2` and
returns, and every other `init` returns at once. -/
def apiRegistersV2 : InitBehaviour :=
  fun _ m _ =>
    if m = apiModule then InitRun.register apiV2Module (InitRun.done false) (InitRun.done false)
    else InitRun.done false

/-- An environment in which the `init` of the web socket module at `/ws` throws
at once and every other `init` returns at once. -/
def wsThrows : InitBehaviour :=
  fun _ m _ => if m = wsModule then InitRun.done true else InitRun.done false

/-! ## What an `init` call does to the state -/

theorem register_none (init : InitEffect) (s : State) :
    register init none s = (s, Completion.threw Thrown.typeError) := rfl

theorem register_some (init : InitEffect) (m : Module) (s : State) :
    register init (some m) s =
      if m.serverType = ServerType.WEB_SOCKET then
        if (init m RequestHandler.webSocket
            ⟨s.modulesDescriptions ++ [⟨false, m⟩],
              s.trace ++ [Event.log ("Registering module " ++ m.contextPath)] ++
                [Event.init m RequestHandler.webSocket]⟩).2 = true then
          ((init m RequestHandler.webSocket
            ⟨s.modulesDescriptions ++ [⟨false, m⟩],
              s.trace ++ [Event.log ("Registering module " ++ m.contextPath)] ++
                [Event.init m RequestHandler.webSocket]⟩).1,
            Completion.threw (Thrown.initError m))
        else
          ((init m RequestHandler.webSocket
            ⟨s.modulesDescriptions ++ [⟨false, m⟩],
              s.trace ++ [Event.log ("Registering module " ++ m.contextPath)] ++
                [Event.init m RequestHandler.webSocket]⟩).1,
            Completion.returned)
      else
        (⟨s.modulesDescriptions ++ [⟨false, m⟩],
          s.trace ++ [Event.log ("Registering module " ++ m.contextPath)]⟩,
          Completion.returned) := rfl

/-- An `init` call appends its entries and its events, whatever the state. -/
theorem run_eq : ∀ (r : InitRun) (s : State),
    r.run s = (⟨s.modulesDescriptions ++ r.entries, s.trace ++ r.events⟩, r.throws) := by
  intro r
  induction r with
  | done t => intro s; simp [InitRun.run, InitRun.entries, InitRun.events, InitRun.throws]
  | register m nested rest ihn ihr =>
    intro s
    rw [InitRun.run, register_some]
    by_cases hws : m.serverType = ServerType.WEB_SOCKET
    · simp only [hws, if_true, ihn]
      split <;> simp [ihr, InitRun.entries, InitRun.events, InitRun.throws, hws]
    · simp [hws, ihr, InitRun.entries, InitRun.events, InitRun.throws]

theorem effect_eq (env : InitBehaviour) (m : Module) (h : RequestHandler) (s : State) :
    effect env m h s =
      (⟨s.modulesDescriptions ++ (env s.trace m h).entries,
        s.trace ++ (env s.trace m h).events⟩, (env s.trace m h).throws) := by
  unfold effect
  rw [run_eq]

theorem entries_uninitialized : ∀ (r : InitRun), ∀ d ∈ r.entries, d.initialized = false := by
  intro r
  induction r with
  | done t => intro d hd; simp [InitRun.entries] at hd
  | register m nested rest ihn ihr =>
    intro d hd
    simp only [InitRun.entries, List.mem_cons, List.mem_append] at hd
    rcases hd with rfl | hd | hd
    · rfl
    · split at hd
      · exact ihn d hd
      · simp at hd
    · exact ihr d hd

theorem nextCalls_append (a b : List Event) : nextCalls (a ++ b) = nextCalls a ++ nextCalls b := by
  simp [nextCalls, List.filterMap_append]

theorem expressInits_append (a b : List Event) :
    expressInits (a ++ b) = expressInits a ++ expressInits b := by
  simp [expressInits, List.filterMap_append]

theorem initCalls_append (m : Module) (a b : List Event) :
    initCalls m (a ++ b) = initCalls m a + initCalls m b := by
  simp [initCalls, List.countP_append]

theorem initCalls_init_self (m : Module) (h : RequestHandler) :
    initCalls m [Event.init m h] = 1 := by
  simp [initCalls]

theorem initCalls_init_of_ne (m m2 : Module) (h : RequestHandler) (hne : m2 ≠ m) :
    initCalls m [Event.init m2 h] = 0 := by
  simp [initCalls, hne]

theorem initCalls_log (m : Module) (msg : String) : initCalls m [Event.log msg] = 0 := by
  simp [initCalls]

theorem initCalls_next (m : Module) (a : Option Thrown) : initCalls m [Event.next a] = 0 := by
  simp [initCalls]

theorem nextCalls_events : ∀ (r : InitRun), nextCalls r.events = [] := by
  intro r
  induction r with
  | done t => rfl
  | register m nested rest ihn ihr =>
    by_cases hws : m.serverType = ServerType.WEB_SOCKET <;>
      simp_all [InitRun.events, nextCalls, List.filterMap_append, List.filterMap_cons]

theorem expressInits_events : ∀ (r : InitRun), expressInits r.events = [] := by
  intro r
  induction r with
  | done t => rfl
  | register m nested rest ihn ihr =>
    by_cases hws : m.serverType = ServerType.WEB_SOCKET <;>
      simp_all [InitRun.events, expressInits, List.filterMap_append, List.filterMap_cons]

/-- The `init` calls nested in an `init` call are those of `register`: they are
made on web socket modules only. -/
theorem initCalls_events_of_not_webSocket (m : Module)
    (hm : m.serverType ≠ ServerType.WEB_SOCKET) :
    ∀ (r : InitRun), initCalls m r.events = 0 := by
  intro r
  induction r with
  | done t => rfl
  | register m2 nested rest ihn ihr =>
    simp only [InitRun.events]
    rw [show ∀ (e : Event) (l : List Event), e :: l = [e] ++ l from fun _ _ => rfl,
      initCalls_append, initCalls_append, ihr, initCalls_log]
    split
    · rename_i hws
      have hne : m2 ≠ m := fun h => hm (h ▸ hws)
      rw [show ∀ (e : Event) (l : List Event), e :: l = [e] ++ l from fun _ _ => rfl,
        initCalls_append, ihn, initCalls_init_of_ne m m2 _ hne]
    · rfl

/-! ## The loop, one iteration at a time -/

theorem visit_eq (env : InitBehaviour) (path : String) (i : Nat) (d : ModuleDescription)
    (s : State) :
    configureFrontController.visit (effect env) path i d s =
      if (matchesPath path d && !d.initialized) = true then
        if (env (s.trace ++ [Event.init d.module RequestHandler.express]) d.module
            RequestHandler.express).throws = true then
          (⟨s.modulesDescriptions ++
              (env (s.trace ++ [Event.init d.module RequestHandler.express]) d.module
                RequestHandler.express).entries,
            s.trace ++ [Event.init d.module RequestHandler.express] ++
              (env (s.trace ++ [Event.init d.module RequestHandler.express]) d.module
                RequestHandler.express).events⟩,
            some (Thrown.initError d.module))
        else
          (⟨(s.modulesDescriptions ++
              (env (s.trace ++ [Event.init d.module RequestHandler.express]) d.module
                RequestHandler.express).entries).set i ⟨true, d.module⟩,
            s.trace ++ [Event.init d.module RequestHandler.express] ++
              (env (s.trace ++ [Event.init d.module RequestHandler.express]) d.module
                RequestHandler.express).events⟩,
            none)
      else (s, none) := by
  unfold configureFrontController.visit
  simp only [effect_eq]

theorem visit_of_not_pending (init : InitEffect) (path : String) (i : Nat)
    (d : ModuleDescription) (s : State)
    (h : (matchesPath path d && !d.initialized) = false) :
    configureFrontController.visit init path i d s = (s, none) := by
  unfold configureFrontController.visit
  simp [h]

theorem loop_zero (init : InitEffect) (path : String) (i : Nat) (s : State) :
    configureFrontController.loop init path 0 i s = (s, none) := rfl

theorem loop_succ_none (init : InitEffect) (path : String) (n i : Nat) (s : State)
    (h : s.modulesDescriptions[i]? = none) :
    configureFrontController.loop init path (n + 1) i s = (s, some Completion.returned) := by
  rw [configureFrontController.loop, h]

theorem loop_succ_threw (init : InitEffect) (path : String) (n i : Nat) (s : State)
    (d : ModuleDescription) (e : Thrown) (h : s.modulesDescriptions[i]? = some d)
    (hv : (configureFrontController.visit init path i d s).2 = some e) :
    configureFrontController.loop init path (n + 1) i s =
      ((configureFrontController.visit init path i d s).1, some (Completion.threw e)) := by
  rw [configureFrontController.loop, h]
  simp only
  split
  · rename_i s2 e2 heq
    rw [heq] at hv
    simp only [Option.some.injEq] at hv
    rw [heq, hv]
  · rename_i s2 heq
    rw [heq] at hv
    simp at hv

theorem loop_succ_next (init : InitEffect) (path : String) (n i : Nat) (s : State)
    (d : ModuleDescription) (h : s.modulesDescriptions[i]? = some d)
    (hv : (configureFrontController.visit init path i d s).2 = none) :
    configureFrontController.loop init path (n + 1) i s =
      configureFrontController.loop init path n (i + 1)
        (configureFrontController.visit init path i d s).1 := by
  rw [configureFrontController.loop, h]
  simp only
  split
  · rename_i s2 e2 heq
    rw [heq] at hv
    simp at hv
  · rename_i s2 heq
    rw [heq]

/-- Running `a + b` iterations is running `a` and, if the loop has not ended,
`b` more. -/
theorem loop_add (init : InitEffect) (path : String) (b : Nat) :
    ∀ (a i : Nat) (s : State),
      configureFrontController.loop init path (a + b) i s =
        if (configureFrontController.loop init path a i s).2 = none then
          configureFrontController.loop init path b (i + a)
            (configureFrontController.loop init path a i s).1
        else configureFrontController.loop init path a i s := by
  intro a
  induction a with
  | zero => intro i s; simp [loop_zero]
  | succ a ih =>
    intro i s
    rw [show a + 1 + b = (a + b) + 1 by omega]
    cases hd : s.modulesDescriptions[i]? with
    | none => simp [loop_succ_none init path _ i s hd]
    | some d =>
      cases hv : (configureFrontController.visit init path i d s).2 with
      | some e => simp [loop_succ_threw init path _ i s d e hd hv]
      | none =>
        rw [loop_succ_next init path _ i s d hd hv, loop_succ_next init path _ i s d hd hv, ih]
        rw [show i + 1 + a = i + (a + 1) by omega]

/-- A property of states kept by every iteration holds of whatever the loop
reaches. -/
theorem loop_preserves (init : InitEffect) (path : String) (P : State → Prop)
    (hvisit : ∀ (i : Nat) (d : ModuleDescription) (s : State),
      s.modulesDescriptions[i]? = some d → P s →
      P (configureFrontController.visit init path i d s).1) :
    ∀ (n i : Nat) (s : State), P s → P (configureFrontController.loop init path n i s).1 := by
  intro n
  induction n with
  | zero => intro i s h; exact h
  | succ n ih =>
    intro i s h
    cases hd : s.modulesDescriptions[i]? with
    | none => rw [loop_succ_none init path _ i s hd]; exact h
    | some d =>
      cases hv : (configureFrontController.visit init path i d s).2 with
      | some e => rw [loop_succ_threw init path _ i s d e hd hv]; exact hvisit i d s hd h
      | none =>
        rw [loop_succ_next init path _ i s d hd hv]
        exact ih _ _ (hvisit i d s hd h)

theorem handler_of_returned (init : InitEffect) (path : String) (n : Nat) (s : State)
    (h : (configureFrontController.loop init path n 0 s).2 = some Completion.returned) :
    configureFrontController.handler init path n s =
      (⟨(configureFrontController.loop init path n 0 s).1.modulesDescriptions,
        (configureFrontController.loop init path n 0 s).1.trace ++ [Event.next none]⟩,
        some Completion.returned) := by
  unfold configureFrontController.handler
  split
  · rename_i s2 heq
    rw [heq]
  · rename_i r hne
    exact absurd h (by
      intro h2
      exact hne (configureFrontController.loop init path n 0 s).1 (Prod.ext rfl h2))

theorem handler_of_not_returned (init : InitEffect) (path : String) (n : Nat) (s : State)
    (h : (configureFrontController.loop init path n 0 s).2 ≠ some Completion.returned) :
    configureFrontController.handler init path n s =
      configureFrontController.loop init path n 0 s := by
  unfold configureFrontController.handler
  split
  · rename_i s2 heq
    rw [heq] at h
    exact absurd rfl h
  · rfl

theorem handler_returned_iff (init : InitEffect) (path : String) (n : Nat) (s : State) :
    (configureFrontController.handler init path n s).2 = some Completion.returned ↔
      (configureFrontController.loop init path n 0 s).2 = some Completion.returned := by
  by_cases h : (configureFrontController.loop init path n 0 s).2 = some Completion.returned
  · rw [handler_of_returned init path n s h]; simp [h]
  · rw [handler_of_not_returned init path n s h]

/-- A property of states kept by every iteration and by the call of `next()`
holds of whatever the handler reaches. -/
theorem handler_preserves (init : InitEffect) (path : String) (P : State → Prop)
    (hvisit : ∀ (i : Nat) (d : ModuleDescription) (s : State),
      s.modulesDescriptions[i]? = some d → P s →
      P (configureFrontController.visit init path i d s).1)
    (hnext : ∀ s : State, P s → P ⟨s.modulesDescriptions, s.trace ++ [Event.next none]⟩)
    (n : Nat) (s : State) (h : P s) :
    P (configureFrontController.handler init path n s).1 := by
  have hl := loop_preserves init path P hvisit n 0 s h
  by_cases hr : (configureFrontController.loop init path n 0 s).2 = some Completion.returned
  · rw [handler_of_returned init path n s hr]; exact hnext _ hl
  · rw [handler_of_not_returned init path n s hr]; exact hl

/-! ## What one iteration does -/

/-- The three ways an iteration can go: the description is not pending and
nothing happens; its `init` throws; its `init` returns and the flag is set.  In
the last two cases the `init` call has appended its entries and events. -/
theorem visit_cases (env : InitBehaviour) (path : String) (i : Nat) (d : ModuleDescription)
    (s : State) (hd : s.modulesDescriptions[i]? = some d) :
    ((matchesPath path d && !d.initialized) = false ∧
      configureFrontController.visit (effect env) path i d s = (s, none)) ∨
    (matchesPath path d = true ∧ d.initialized = false ∧
      (env (s.trace ++ [Event.init d.module RequestHandler.express]) d.module
        RequestHandler.express).throws = true ∧
      configureFrontController.visit (effect env) path i d s =
        (⟨s.modulesDescriptions ++
            (env (s.trace ++ [Event.init d.module RequestHandler.express]) d.module
              RequestHandler.express).entries,
          s.trace ++ (Event.init d.module RequestHandler.express ::
            (env (s.trace ++ [Event.init d.module RequestHandler.express]) d.module
              RequestHandler.express).events)⟩,
          some (Thrown.initError d.module))) ∨
    (matchesPath path d = true ∧ d.initialized = false ∧
      (env (s.trace ++ [Event.init d.module RequestHandler.express]) d.module
        RequestHandler.express).throws = false ∧
      configureFrontController.visit (effect env) path i d s =
        (⟨s.modulesDescriptions.set i ⟨true, d.module⟩ ++
            (env (s.trace ++ [Event.init d.module RequestHandler.express]) d.module
              RequestHandler.express).entries,
          s.trace ++ (Event.init d.module RequestHandler.express ::
            (env (s.trace ++ [Event.init d.module RequestHandler.express]) d.module
              RequestHandler.express).events)⟩,
          none)) := by
  have hlt : i < s.modulesDescriptions.length := by
    obtain ⟨h, _⟩ := List.getElem?_eq_some.1 hd
    exact h
  rw [visit_eq]
  by_cases hp : (matchesPath path d && !d.initialized) = true
  · have hp2 := hp
    simp only [Bool.and_eq_true, Bool.not_eq_true'] at hp2
    by_cases ht : (env (s.trace ++ [Event.init d.module RequestHandler.express]) d.module
        RequestHandler.express).throws = true
    · right; left
      refine ⟨hp2.1, hp2.2, ht, ?_⟩
      simp [hp, ht]
    · right; right
      have ht2 : (env (s.trace ++ [Event.init d.module RequestHandler.express]) d.module
        RequestHandler.express).throws = false := by simpa using ht
      refine ⟨hp2.1, hp2.2, ht2, ?_⟩
      simp [hp, ht2, List.set_append_left _ _ hlt]
  · left
    have hp2 : (matchesPath path d && !d.initialized) = false := by simpa using hp
    exact ⟨hp2, by simp [hp2]⟩

/-- Every iteration leaves the list as it was but for the flag of the description
it visits, with new uninitialized descriptions appended, and leaves the trace as
it was with new events appended, none of them a `next` call and the only `init`
call with the Express handler among them being the one on the visited module. -/
theorem visit_shape (env : InitBehaviour) (path : String) (i : Nat) (d : ModuleDescription)
    (s : State) (hd : s.modulesDescriptions[i]? = some d) :
    ∃ (d2 : ModuleDescription) (es : List ModuleDescription) (evs : List Event),
      (configureFrontController.visit (effect env) path i d s).1 =
        ⟨s.modulesDescriptions.set i d2 ++ es, s.trace ++ evs⟩ ∧
      (d2 = d ∨ (d2 = ⟨true, d.module⟩ ∧ matchesPath path d = true)) ∧
      (∀ e ∈ es, e.initialized = false) ∧
      nextCalls evs = [] ∧
      (expressInits evs = [] ∨ (expressInits evs = [d.module] ∧ matchesPath path d = true)) := by
  have hset : s.modulesDescriptions.set i d = s.modulesDescriptions := by
    apply List.ext_getElem?
    intro k
    by_cases hk : i = k
    · subst hk; rw [List.getElem?_set_self', hd]; rfl
    · rw [List.getElem?_set_ne hk]
  have hsplit : ∀ (e : Event) (l : List Event), e :: l = [e] ++ l := fun _ _ => rfl
  have key := visit_cases env path i d s hd
  generalize env (s.trace ++ [Event.init d.module RequestHandler.express]) d.module
    RequestHandler.express = R at key
  rcases key with ⟨_, hv⟩ | ⟨hm, _, _, hv⟩ | ⟨hm, _, _, hv⟩
  · refine ⟨d, [], [], ?_, Or.inl rfl, by simp, rfl, Or.inl rfl⟩
    rw [hv, hset]; simp
  · refine ⟨d, R.entries, Event.init d.module RequestHandler.express :: R.events, ?_,
      Or.inl rfl, entries_uninitialized _, ?_, Or.inr ⟨?_, hm⟩⟩
    · rw [hv, hset]
    · rw [hsplit, nextCalls_append, nextCalls_events]; rfl
    · rw [hsplit, expressInits_append, expressInits_events]; rfl
  · refine ⟨⟨true, d.module⟩, R.entries, Event.init d.module RequestHandler.express :: R.events,
      ?_, Or.inr ⟨rfl, hm⟩, entries_uninitialized _, ?_, Or.inr ⟨?_, hm⟩⟩
    · rw [hv]
    · rw [hsplit, nextCalls_append, nextCalls_events]; rfl
    · rw [hsplit, expressInits_append, expressInits_events]; rfl

theorem matchesPath_iff (path : String) (d : ModuleDescription) :
    matchesPath path d = true ↔ indexOf path d.module.contextPath = 0 := by
  simp [matchesPath]

theorem visit_length_le (env : InitBehaviour) (path : String) (i : Nat)
    (d : ModuleDescription) (s : State) (hd : s.modulesDescriptions[i]? = some d) :
    s.modulesDescriptions.length ≤
      (configureFrontController.visit (effect env) path i d s).1.modulesDescriptions.length := by
  obtain ⟨d2, es, evs, h, _⟩ := visit_shape env path i d s hd
  rw [h]; simp

theorem visit_getElem_ne (env : InitBehaviour) (path : String) (i k : Nat)
    (d : ModuleDescription) (s : State) (hd : s.modulesDescriptions[i]? = some d)
    (hne : i ≠ k) (hk : k < s.modulesDescriptions.length) :
    (configureFrontController.visit (effect env) path i d s).1.modulesDescriptions[k]? =
      s.modulesDescriptions[k]? := by
  obtain ⟨d2, es, evs, h, _⟩ := visit_shape env path i d s hd
  rw [h]
  simp only
  rw [List.getElem?_append_left (by simpa using hk), List.getElem?_set_ne hne]

theorem visit_getElem_self (env : InitBehaviour) (path : String) (i : Nat)
    (d : ModuleDescription) (s : State) (hd : s.modulesDescriptions[i]? = some d) :
    (configureFrontController.visit (effect env) path i d s).1.modulesDescriptions[i]? = some d ∨
    ((configureFrontController.visit (effect env) path i d s).1.modulesDescriptions[i]? =
        some ⟨true, d.module⟩ ∧ matchesPath path d = true) := by
  have hlt : i < s.modulesDescriptions.length := by
    obtain ⟨h, _⟩ := List.getElem?_eq_some.1 hd
    exact h
  obtain ⟨d2, es, evs, h, hd2, _⟩ := visit_shape env path i d s hd
  have hget : (configureFrontController.visit (effect env) path i d s).1.modulesDescriptions[i]? =
      some d2 := by
    rw [h]
    simp only
    rw [List.getElem?_append_left (by simpa using hlt), List.getElem?_set_self hlt]
  rcases hd2 with rfl | ⟨rfl, hm⟩
  · exact Or.inl hget
  · exact Or.inr ⟨hget, hm⟩

/-- An iteration that does not throw leaves the visited description initialized
if it matches the path. -/
theorem visit_initializes (env : InitBehaviour) (path : String) (i : Nat)
    (d : ModuleDescription) (s : State) (hd : s.modulesDescriptions[i]? = some d)
    (hv : (configureFrontController.visit (effect env) path i d s).2 = none) :
    ∃ d2, (configureFrontController.visit (effect env) path i d s).1.modulesDescriptions[i]? =
        some d2 ∧ d2.module = d.module ∧ (matchesPath path d = true → d2.initialized = true) := by
  have hlt : i < s.modulesDescriptions.length := by
    obtain ⟨h, _⟩ := List.getElem?_eq_some.1 hd
    exact h
  rcases visit_cases env path i d s hd with ⟨hp, h⟩ | ⟨_, _, _, h⟩ | ⟨_, _, _, h⟩
  · refine ⟨d, by rw [h]; exact hd, rfl, ?_⟩
    intro hm
    simpa [hm] using hp
  · rw [h] at hv; simp at hv
  · refine ⟨⟨true, d.module⟩, ?_, rfl, fun _ => rfl⟩
    rw [h]
    simp only
    rw [List.getElem?_append_left (by simpa using hlt), List.getElem?_set_self hlt]

theorem loop_length_le (env : InitBehaviour) (path : String) (n i : Nat) (s : State) :
    s.modulesDescriptions.length ≤
      (configureFrontController.loop (effect env) path n i s).1.modulesDescriptions.length :=
  loop_preserves (effect env) path
    (fun s2 => s.modulesDescriptions.length ≤ s2.modulesDescriptions.length)
    (fun i d s2 hd h => Nat.le_trans h (visit_length_le env path i d s2 hd)) n i s
    (Nat.le_refl _)

/-- The loop standing at index `i` and running `a` iterations does not touch the
descriptions from index `i + a` on. -/
theorem loop_untouched (env : InitBehaviour) (path : String) :
    ∀ (a i : Nat) (s : State) (k : Nat), i + a ≤ k → k < s.modulesDescriptions.length →
      (configureFrontController.loop (effect env) path a i s).1.modulesDescriptions[k]? =
        s.modulesDescriptions[k]? := by
  intro a
  induction a with
  | zero => intro i s k _ _; rfl
  | succ a ih =>
    intro i s k hk hlen
    cases hd : s.modulesDescriptions[i]? with
    | none => rw [loop_succ_none _ path _ i s hd]
    | some d =>
      have hne : i ≠ k := by omega
      have h1 := visit_getElem_ne env path i k d s hd hne hlen
      cases hv : (configureFrontController.visit (effect env) path i d s).2 with
      | some e => rw [loop_succ_threw _ path _ i s d e hd hv]; exact h1
      | none =>
        rw [loop_succ_next _ path _ i s d hd hv,
          ih _ _ k (by omega) (Nat.lt_of_lt_of_le hlen (visit_length_le env path i d s hd)), h1]

/-- What the loop adds to the trace: no `next` call, and `init` calls with the
Express handler only on modules whose context path is a prefix of the path. -/
theorem loop_trace (env : InitBehaviour) (path : String) (n i : Nat) (s : State) :
    ∃ evs, (configureFrontController.loop (effect env) path n i s).1.trace = s.trace ++ evs ∧
      nextCalls evs = [] ∧
      ∀ m ∈ expressInits evs, indexOf path m.contextPath = 0 := by
  apply loop_preserves (effect env) path
    (fun s2 => ∃ evs, s2.trace = s.trace ++ evs ∧ nextCalls evs = [] ∧
      ∀ m ∈ expressInits evs, indexOf path m.contextPath = 0)
  · intro j d s2 hd ⟨evs, h1, h2, h3⟩
    obtain ⟨d2, es, evs2, h, _, _, hn, he⟩ := visit_shape env path j d s2 hd
    refine ⟨evs ++ evs2, ?_, ?_, ?_⟩
    · rw [h]; simp [h1]
    · rw [nextCalls_append, h2, hn]; rfl
    · intro m hm
      rw [expressInits_append, List.mem_append] at hm
      rcases hm with hm | hm
      · exact h3 m hm
      · rcases he with he | ⟨he, hmatch⟩
        · rw [he] at hm; simp at hm
        · rw [he, List.mem_singleton] at hm
          rw [hm]
          exact (matchesPath_iff path d).1 hmatch
  · exact ⟨[], by simp, rfl, by simp [expressInits]⟩

/-- The loop standing at index `i`, all matching descriptions before `i` being
initialized: while it runs that stays so up to the index it has reached, and when
it ends by itself every matching description of the list is initialized. -/
theorem loop_visited (env : InitBehaviour) (path : String) :
    ∀ (n i : Nat) (s : State),
      (∀ (j : Nat) (d : ModuleDescription), j < i → s.modulesDescriptions[j]? = some d →
        matchesPath path d = true → d.initialized = true) →
      ((configureFrontController.loop (effect env) path n i s).2 = none →
        ∀ (j : Nat) (d : ModuleDescription), j < i + n →
          (configureFrontController.loop (effect env) path n i s).1.modulesDescriptions[j]? =
            some d →
          matchesPath path d = true → d.initialized = true) ∧
      ((configureFrontController.loop (effect env) path n i s).2 = some Completion.returned →
        ∀ (j : Nat) (d : ModuleDescription),
          (configureFrontController.loop (effect env) path n i s).1.modulesDescriptions[j]? =
            some d →
          matchesPath path d = true → d.initialized = true) := by
  intro n
  induction n with
  | zero =>
    intro i s hq
    refine ⟨fun _ j d hj => hq j d hj, ?_⟩
    intro h; simp [loop_zero] at h
  | succ n ih =>
    intro i s hq
    cases hd : s.modulesDescriptions[i]? with
    | none =>
      rw [loop_succ_none _ path _ i s hd]
      refine ⟨fun h => by simp at h, ?_⟩
      intro _ j d hj hm
      have hlen : s.modulesDescriptions.length ≤ i := List.getElem?_eq_none_iff.1 hd
      have hjl : j < s.modulesDescriptions.length := by
        obtain ⟨h, _⟩ := List.getElem?_eq_some.1 hj
        exact h
      exact hq j d (by omega) hj hm
    | some d0 =>
      cases hv : (configureFrontController.visit (effect env) path i d0 s).2 with
      | some e =>
        rw [loop_succ_threw _ path _ i s d0 e hd hv]
        exact ⟨fun h => by simp at h, fun h => by simp at h⟩
      | none =>
        rw [loop_succ_next _ path _ i s d0 hd hv]
        have hlt : i < s.modulesDescriptions.length := by
          obtain ⟨h, _⟩ := List.getElem?_eq_some.1 hd
          exact h
        have hq2 : ∀ (j : Nat) (d : ModuleDescription), j < i + 1 →
            (configureFrontController.visit (effect env) path i d0 s).1.modulesDescriptions[j]? =
              some d →
            matchesPath path d = true → d.initialized = true := by
          intro j d hj hget hm
          by_cases hji : j = i
          · subst hji
            obtain ⟨d2, h2, hmod, hinit⟩ := visit_initializes env path j d0 s hd hv
            rw [h2] at hget
            simp only [Option.some.injEq] at hget
            subst hget
            apply hinit
            simpa [matchesPath, hmod] using hm
          · rw [visit_getElem_ne env path i j d0 s hd (fun h => hji h.symm) (by omega)] at hget
            exact hq j d (by omega) hget hm
        obtain ⟨h1, h2⟩ := ih (i + 1) _ hq2
        refine ⟨?_, h2⟩
        intro hnone j d hj
        exact h1 hnone j d (by omega)

/-! ## `indexOf` -/

theorem indexOfFrom_ge (search : List Char) :
    ∀ (s : List Char) (k : Nat), indexOfFrom search s k = -1 ∨ (k : Int) ≤ indexOfFrom search s k := by
  intro s
  induction s with
  | nil => intro k; unfold indexOfFrom; split <;> simp
  | cons c t ih =>
    intro k
    unfold indexOfFrom
    split
    · simp
    · rcases ih (k + 1) with h | h
      · exact Or.inl h
      · right; push_cast at h; omega

theorem indexOfFrom_zero (search s : List Char) :
    indexOfFrom search s 0 = 0 ↔ search <+: s := by
  rw [← List.isPrefixOf_iff_prefix]
  cases s with
  | nil => unfold indexOfFrom; split <;> simp_all
  | cons c t =>
    unfold indexOfFrom
    split
    · simp_all
    · rename_i h
      constructor
      · intro h0
        rcases indexOfFrom_ge search t (0 + 1) with h1 | h1
        · rw [h1] at h0; omega
        · rw [h0] at h1; simp at h1
      · intro h2; exact absurd h2 h

theorem indexOf_eq_zero_iff (p c : String) : indexOf p c = 0 ↔ c.data <+: p.data :=
  indexOfFrom_zero c.data p.data

/-! ## Registration -/

theorem register_effect (env : InitBehaviour) (m : Module) (s : State) :
    register (effect env) (some m) s =
      if m.serverType = ServerType.WEB_SOCKET then
        (⟨s.modulesDescriptions ++ ⟨false, m⟩ ::
            (env (s.trace ++ [Event.log ("Registering module " ++ m.contextPath),
              Event.init m RequestHandler.webSocket]) m RequestHandler.webSocket).entries,
          s.trace ++ Event.log ("Registering module " ++ m.contextPath) ::
            Event.init m RequestHandler.webSocket ::
            (env (s.trace ++ [Event.log ("Registering module " ++ m.contextPath),
              Event.init m RequestHandler.webSocket]) m RequestHandler.webSocket).events⟩,
          if (env (s.trace ++ [Event.log ("Registering module " ++ m.contextPath),
              Event.init m RequestHandler.webSocket]) m RequestHandler.webSocket).throws = true
            then Completion.threw (Thrown.initError m) else Completion.returned)
      else
        (⟨s.modulesDescriptions ++ [⟨false, m⟩],
          s.trace ++ [Event.log ("Registering module " ++ m.contextPath)]⟩,
          Completion.returned) := by
  rw [register_some]
  by_cases hws : m.serverType = ServerType.WEB_SOCKET
  · simp only [hws, if_true, effect_eq, List.append_assoc, List.singleton_append]
    split <;> simp
  · simp [hws]

theorem register_descriptions (env : InitBehaviour) (m : Module) (s : State) :
    ∃ es, (register (effect env) (some m) s).1.modulesDescriptions =
      s.modulesDescriptions ++ ⟨false, m⟩ :: es := by
  rw [register_effect]
  split
  · exact ⟨_, rfl⟩
  · exact ⟨[], rfl⟩

/-- Every module handed to `registerAll` has a description in the list
afterwards, and the descriptions that were there before are still there. -/
theorem registerAll_descriptions (env : InitBehaviour) :
    ∀ (ms : List Module) (s : State),
      (∃ es, (registerAll (effect env) ms s).modulesDescriptions = s.modulesDescriptions ++ es) ∧
      ∀ m ∈ ms, ∃ d ∈ (registerAll (effect env) ms s).modulesDescriptions, d.module = m := by
  intro ms
  induction ms with
  | nil => intro s; exact ⟨⟨[], by simp [registerAll]⟩, by simp⟩
  | cons m ms ih =>
    intro s
    obtain ⟨es, hes⟩ := register_descriptions env m s
    obtain ⟨⟨es2, hes2⟩, hmem⟩ := ih (register (effect env) (some m) s).1
    rw [registerAll]
    refine ⟨⟨⟨false, m⟩ :: es ++ es2, by rw [hes2, hes]; simp⟩, ?_⟩
    intro m2 hm2
    rcases List.mem_cons.1 hm2 with rfl | hm2
    · refine ⟨⟨false, m2⟩, ?_, rfl⟩
      rw [hes2, hes]
      simp
    · exact hmem m2 hm2

/-- Once a module has a description in the list, a request does not remove it. -/
theorem handler_keeps_module (env : InitBehaviour) (path : String) (n : Nat) (s : State)
    (m : Module) (h : ∃ d ∈ s.modulesDescriptions, d.module = m) :
    ∃ d ∈ (configureFrontController.handler (effect env) path n s).1.modulesDescriptions,
      d.module = m := by
  have key : ∀ s2 : State, (∃ d ∈ s2.modulesDescriptions, d.module = m) ↔
      ∃ (k : Nat) (d : ModuleDescription), s2.modulesDescriptions[k]? = some d ∧ d.module = m := by
    intro s2
    constructor
    · rintro ⟨d, hd, hm⟩
      obtain ⟨k, hk⟩ := List.mem_iff_getElem?.1 hd
      exact ⟨k, d, hk, hm⟩
    · rintro ⟨k, d, hk, hm⟩
      exact ⟨d, List.mem_iff_getElem?.2 ⟨k, hk⟩, hm⟩
  rw [key] at h ⊢
  apply handler_preserves (effect env) path
    (fun s2 => ∃ (k : Nat) (d : ModuleDescription),
      s2.modulesDescriptions[k]? = some d ∧ d.module = m) _ _ n s h
  · rintro i d0 s2 hd0 ⟨k, d, hk, hm⟩
    by_cases hik : i = k
    · subst hik
      rw [hd0] at hk
      simp only [Option.some.injEq] at hk
      subst hk
      rcases visit_getElem_self env path i d0 s2 hd0 with h1 | ⟨h1, _⟩
      · exact ⟨i, d0, h1, hm⟩
      · exact ⟨i, _, h1, hm⟩
    · have hlt : k < s2.modulesDescriptions.length := by
        obtain ⟨h, _⟩ := List.getElem?_eq_some.1 hk
        exact h
      exact ⟨k, d, by rw [visit_getElem_ne env path i k d0 s2 hd0 hik hlt]; exact hk, hm⟩
  · intro s2 h2; exact h2

/-! ## More on iterations -/

theorem visit_modules (env : InitBehaviour) (path : String) (i : Nat)
    (d : ModuleDescription) (s : State) (hd : s.modulesDescriptions[i]? = some d) :
    ∃ es : List ModuleDescription,
      (configureFrontController.visit (effect env) path i d s).1.modulesDescriptions.map
          (fun x => x.module) =
        s.modulesDescriptions.map (fun x => x.module) ++ es.map (fun x => x.module) := by
  obtain ⟨d2, es, evs, h, hd2, _⟩ := visit_shape env path i d s hd
  refine ⟨es, ?_⟩
  rw [h]
  simp only [List.map_append, List.map_set]
  congr 1
  have hmod : d2.module = d.module := by
    rcases hd2 with rfl | ⟨rfl, _⟩ <;> rfl
  apply List.ext_getElem?
  intro k
  by_cases hk : i = k
  · subst hk
    rw [List.getElem?_set_self', List.getElem?_map, hd, hmod]
    rfl
  · rw [List.getElem?_set_ne hk]

/-- An iteration whose `init` call registers nothing leaves the modules of the
list as they are. -/
theorem visit_modules_quiet (env : InitBehaviour) (path : String) (i : Nat)
    (d : ModuleDescription) (s : State) (hd : s.modulesDescriptions[i]? = some d)
    (hq : ∀ (tr : List Event) (m : Module), ∃ t, env tr m RequestHandler.express = InitRun.done t) :
    (configureFrontController.visit (effect env) path i d s).1.modulesDescriptions.map
        (fun x => x.module) =
      s.modulesDescriptions.map (fun x => x.module) := by
  have hset : ∀ d2 : ModuleDescription, d2.module = d.module →
      (s.modulesDescriptions.set i d2).map (fun x => x.module) =
        s.modulesDescriptions.map (fun x => x.module) := by
    intro d2 hmod
    rw [List.map_set]
    apply List.ext_getElem?
    intro k
    by_cases hk : i = k
    · subst hk
      rw [List.getElem?_set_self', List.getElem?_map, hd, hmod]
      rfl
    · rw [List.getElem?_set_ne hk]
  obtain ⟨t, ht⟩ := hq (s.trace ++ [Event.init d.module RequestHandler.express]) d.module
  rcases visit_cases env path i d s hd with ⟨_, h⟩ | ⟨_, _, _, h⟩ | ⟨_, _, _, h⟩
  · rw [h]
  · rw [h, ht]; simp [InitRun.entries]
  · rw [h, ht]
    simp only [InitRun.entries, List.append_nil]
    exact hset _ rfl

/-- With nothing pending from index `i` on, the loop runs to the end of the list
and changes nothing. -/
theorem loop_of_none_pending (init : InitEffect) (path : String) :
    ∀ (n i : Nat) (s : State),
      (∀ (j : Nat) (d : ModuleDescription), i ≤ j → s.modulesDescriptions[j]? = some d →
        (matchesPath path d && !d.initialized) = false) →
      s.modulesDescriptions.length ≤ i + n →
      configureFrontController.loop init path (n + 1) i s = (s, some Completion.returned) := by
  intro n
  induction n with
  | zero =>
    intro i s _ hlen
    exact loop_succ_none init path _ i s (List.getElem?_eq_none (by omega))
  | succ n ih =>
    intro i s hp hlen
    cases hd : s.modulesDescriptions[i]? with
    | none => rw [loop_succ_none init path _ i s hd]
    | some d =>
      have hv := visit_of_not_pending init path i d s (hp i d (Nat.le_refl _) hd)
      rw [loop_succ_next init path _ i s d hd (by rw [hv]), hv]
      exact ih (i + 1) s (fun j d2 hj => hp j d2 (by omega)) (by omega)

/-- With nothing pending among the `a` descriptions from index `i` on, `a`
iterations change nothing and leave the loop standing at index `i + a`. -/
theorem loop_of_none_pending_upto (init : InitEffect) (path : String) :
    ∀ (a i : Nat) (s : State),
      (∀ (j : Nat) (d : ModuleDescription), i ≤ j → j < i + a →
        s.modulesDescriptions[j]? = some d →
        (matchesPath path d && !d.initialized) = false) →
      i + a ≤ s.modulesDescriptions.length →
      configureFrontController.loop init path a i s = (s, none) := by
  intro a
  induction a with
  | zero => intro i s _ _; rfl
  | succ a ih =>
    intro i s hp hlen
    have hlt : i < s.modulesDescriptions.length := by omega
    have hd : s.modulesDescriptions[i]? = some s.modulesDescriptions[i] :=
      List.getElem?_eq_getElem hlt
    have hv := visit_of_not_pending init path i _ s (hp i _ (Nat.le_refl _) (by omega) hd)
    rw [loop_succ_next init path _ i s _ hd (by rw [hv]), hv]
    exact ih (i + 1) s (fun j d2 hj hj2 => hp j d2 (by omega) (by omega)) (by omega)

/-- Beyond the index the loop has reached, a description is either as it was
when the loop started or was appended since, and then it is uninitialized. -/
theorem loop_beyond (env : InitBehaviour) (path : String) :
    ∀ (a i : Nat) (s : State) (k : Nat) (x : ModuleDescription), i + a ≤ k →
      (configureFrontController.loop (effect env) path a i s).1.modulesDescriptions[k]? = some x →
      s.modulesDescriptions[k]? = some x ∨
        (s.modulesDescriptions.length ≤ k ∧ x.initialized = false) := by
  intro a
  induction a with
  | zero => intro i s k x _ h; exact Or.inl h
  | succ a ih =>
    intro i s k x hk hx
    have hstep : ∀ d : ModuleDescription, s.modulesDescriptions[i]? = some d →
        (configureFrontController.visit (effect env) path i d s).1.modulesDescriptions[k]? =
          some x →
        s.modulesDescriptions[k]? = some x ∨
          (s.modulesDescriptions.length ≤ k ∧ x.initialized = false) := by
      intro d hd hvx
      obtain ⟨d2, es, evs, h, _, hes, _⟩ := visit_shape env path i d s hd
      by_cases hlen : k < s.modulesDescriptions.length
      · left
        rw [visit_getElem_ne env path i k d s hd (by omega) hlen] at hvx
        exact hvx
      · right
        refine ⟨by omega, ?_⟩
        rw [h] at hvx
        simp only at hvx
        rw [List.getElem?_append_right (by simp; omega)] at hvx
        exact hes x (List.mem_iff_getElem?.2 ⟨_, hvx⟩)
    cases hd : s.modulesDescriptions[i]? with
    | none =>
      rw [loop_succ_none _ path _ i s hd] at hx
      exact Or.inl hx
    | some d =>
      cases hv : (configureFrontController.visit (effect env) path i d s).2 with
      | some e =>
        rw [loop_succ_threw _ path _ i s d e hd hv] at hx
        exact hstep d hd hx
      | none =>
        rw [loop_succ_next _ path _ i s d hd hv] at hx
        rcases ih (i + 1) _ k x (by omega) hx with h1 | ⟨h1, h2⟩
        · exact hstep d hd h1
        · exact Or.inr ⟨Nat.le_trans (visit_length_le env path i d s hd) h1, h2⟩

/-- The handler's trace is the loop's, with the `next()` call added when the
loop ended by itself. -/
theorem handler_trace (init : InitEffect) (path : String) (n : Nat) (s : State) :
    (configureFrontController.handler init path n s).1.modulesDescriptions =
      (configureFrontController.loop init path n 0 s).1.modulesDescriptions ∧
    ∃ evs, (configureFrontController.handler init path n s).1.trace =
        (configureFrontController.loop init path n 0 s).1.trace ++ evs ∧
      expressInits evs = [] ∧ ∀ m : Module, initCalls m evs = 0 := by
  by_cases hr : (configureFrontController.loop init path n 0 s).2 = some Completion.returned
  · rw [handler_of_returned init path n s hr]
    exact ⟨rfl, [Event.next none], rfl, rfl, fun m => rfl⟩
  · rw [handler_of_not_returned init path n s hr]
    exact ⟨rfl, [], by simp, rfl, fun m => rfl⟩

/-- A request in which the first failing `init` is that of the description `d`
found at index `i`: the exception leaves the handler, whose state is the one that
`init` call left. -/
theorem handler_init_failure (env : InitBehaviour) (path : String) (i : Nat)
    (s si : State) (d : ModuleDescription)
    (hreach : configureFrontController.loop (effect env) path i 0 s = (si, none))
    (hd : si.modulesDescriptions[i]? = some d)
    (hm : matchesPath path d = true) (hi : d.initialized = false)
    (ht : (env (si.trace ++ [Event.init d.module RequestHandler.express]) d.module
      RequestHandler.express).throws = true)
    (n : Nat) (hn : i < n) :
    configureFrontController.handler (effect env) path n s =
      (⟨si.modulesDescriptions ++
          (env (si.trace ++ [Event.init d.module RequestHandler.express]) d.module
            RequestHandler.express).entries,
        si.trace ++ Event.init d.module RequestHandler.express ::
          (env (si.trace ++ [Event.init d.module RequestHandler.express]) d.module
            RequestHandler.express).events⟩,
        some (Completion.threw (Thrown.initError d.module))) := by
  obtain ⟨k, rfl⟩ : ∃ k, n = i + (k + 1) := ⟨n - i - 1, by omega⟩
  have hv : configureFrontController.visit (effect env) path i d si =
      (⟨si.modulesDescriptions ++
          (env (si.trace ++ [Event.init d.module RequestHandler.express]) d.module
            RequestHandler.express).entries,
        si.trace ++ Event.init d.module RequestHandler.express ::
          (env (si.trace ++ [Event.init d.module RequestHandler.express]) d.module
            RequestHandler.express).events⟩,
        some (Thrown.initError d.module)) := by
    rw [visit_eq]
    simp [hm, hi, ht]
  have hl : configureFrontController.loop (effect env) path (i + (k + 1)) 0 s =
      (⟨si.modulesDescriptions ++
          (env (si.trace ++ [Event.init d.module RequestHandler.express]) d.module
            RequestHandler.express).entries,
        si.trace ++ Event.init d.module RequestHandler.express ::
          (env (si.trace ++ [Event.init d.module RequestHandler.express]) d.module
            RequestHandler.express).events⟩,
        some (Completion.threw (Thrown.initError d.module))) := by
    rw [loop_add, hreach]
    simp only [if_true, Nat.zero_add]
    rw [loop_succ_threw _ path _ i si d _ hd (by rw [hv]), hv]
  rw [handler_of_not_returned _ path _ s (by rw [hl]; simp), hl]

/-- The loop standing at a pending description invokes its `init`. -/
theorem loop_at_pending (env : InitBehaviour) (path : String) (i : Nat) (s : State)
    (d : ModuleDescription) (hd : s.modulesDescriptions[i]? = some d)
    (hm : matchesPath path d = true) (hi : d.initialized = false) (n : Nat) :
    ∃ evs, (configureFrontController.loop (effect env) path (n + 1) i s).1.trace =
      s.trace ++ [Event.init d.module RequestHandler.express] ++ evs := by
  rcases visit_cases env path i d s hd with ⟨hp, _⟩ | ⟨_, _, _, h⟩ | ⟨_, _, _, h⟩
  · simp [hm, hi] at hp
  · rw [loop_succ_threw _ path _ i s d _ hd (by rw [h]), h]
    exact ⟨(env (s.trace ++ [Event.init d.module RequestHandler.express]) d.module
      RequestHandler.express).events, by simp⟩
  · rw [loop_succ_next _ path _ i s d hd (by rw [h])]
    obtain ⟨evs, hevs, _⟩ := loop_trace env path n (i + 1)
      (configureFrontController.visit (effect env) path i d s).1
    rw [hevs, h]
    exact ⟨(env (s.trace ++ [Event.init d.module RequestHandler.express]) d.module
      RequestHandler.express).events ++ evs, by simp⟩

/-! ## Requests that register nothing -/

/-- The loop over a list none of whose pending descriptions has an `init` that
throws or registers: every description is activated, and the `init` calls are
those of the pending descriptions, in order. -/
theorem loop_quiet (env : InitBehaviour) (path : String) :
    ∀ (rest visited : List ModuleDescription) (tr : List Event) (n : Nat),
      (∀ (pre : List ModuleDescription) (d : ModuleDescription) (post : List ModuleDescription),
        pending path rest = pre ++ d :: post →
        env (tr ++ initEvents (pre ++ [d])) d.module RequestHandler.express =
          InitRun.done false) →
      rest.length ≤ n →
      configureFrontController.loop (effect env) path (n + 1) visited.length
          ⟨visited ++ rest, tr⟩ =
        (⟨visited ++ rest.map (activate path), tr ++ initEvents (pending path rest)⟩,
          some Completion.returned) := by
  intro rest
  induction rest with
  | nil =>
    intro visited tr n _ _
    rw [loop_succ_none _ path _ _ _ (by simp)]
    simp [pending, initEvents]
  | cons d rest ih =>
    intro visited tr n hq hn
    obtain ⟨k, rfl⟩ : ∃ k, n = k + 1 := ⟨n - 1, by simp at hn; omega⟩
    have hd : (State.mk (visited ++ d :: rest) tr).modulesDescriptions[visited.length]? =
        some d := by
      simp only
      rw [List.getElem?_append_right (Nat.le_refl _)]
      simp
    by_cases hp : (matchesPath path d && !d.initialized) = true
    · have hp2 := hp
      simp only [Bool.and_eq_true, Bool.not_eq_true'] at hp2
      have hpend : pending path (d :: rest) = d :: pending path rest := by
        simp [pending, List.filter_cons, hp2.1, hp2.2]
      have hR := hq [] d (pending path rest) (by rw [hpend]; rfl)
      simp only [List.nil_append, initEvents, List.map_cons, List.map_nil] at hR
      have hv : configureFrontController.visit (effect env) path visited.length d
          ⟨visited ++ d :: rest, tr⟩ =
          (⟨(visited ++ [⟨true, d.module⟩]) ++ rest,
            tr ++ [Event.init d.module RequestHandler.express]⟩, none) := by
        rw [visit_eq]
        simp [hp2.1, hp2.2, hR, InitRun.throws, InitRun.entries, InitRun.events]
      rw [loop_succ_next _ path _ _ _ d hd (by rw [hv]), hv]
      have hlen : (visited ++ [(⟨true, d.module⟩ : ModuleDescription)]).length =
          visited.length + 1 := by simp
      dsimp only
      rw [← hlen, ih (visited ++ [(⟨true, d.module⟩ : ModuleDescription)])
        (tr ++ [Event.init d.module RequestHandler.express]) k ?_ (by simp at hn; omega)]
      · simp [hpend, initEvents, activate, hp2.1]
      · intro pre x post hx
        have := hq (d :: pre) x post (by rw [hpend, hx]; rfl)
        simpa [initEvents] using this
    · have hp2 : (matchesPath path d && !d.initialized) = false := by simpa using hp
      have hpend : pending path (d :: rest) = pending path rest := by
        simp [pending, List.filter_cons, hp2]
      have hact : activate path d = d := by
        unfold activate
        by_cases hm : matchesPath path d = true
        · have : d.initialized = true := by simpa [hm] using hp2
          cases d; simp_all
        · simp [hm]
      have hv := visit_of_not_pending (effect env) path visited.length d
        ⟨visited ++ d :: rest, tr⟩ hp2
      rw [loop_succ_next _ path _ _ _ d hd (by rw [hv]), hv]
      have hlen : (visited ++ [d]).length = visited.length + 1 := by simp
      have hl : visited ++ d :: rest = (visited ++ [d]) ++ rest := by simp
      dsimp only
      rw [hl, ← hlen, ih (visited ++ [d]) tr k ?_ (by simp at hn; omega)]
      · simp [hpend, hact]
      · intro pre x post hx
        exact hq pre x post (by rw [hpend, hx])

/-! ## A module registered once -/

theorem matchesPath_module (path : String) (d : ModuleDescription) (b : Bool) :
    matchesPath path ⟨b, d.module⟩ = matchesPath path d := rfl

/-- One iteration keeps a module tracked; its flag can only go from false to
true, and only when the path matches the module. -/
theorem visit_tracked (env : InitBehaviour) (path : String) (m : Module) (n0 c0 : Nat)
    (hty : m.serverType ≠ ServerType.WEB_SOCKET)
    (hnf : ∀ (tr : List Event) (h : RequestHandler), (env tr m h).throws = false)
    (hnr : ∀ (tr : List Event) (m2 : Module) (h : RequestHandler),
      ∀ d ∈ (env tr m2 h).entries, d.module ≠ m)
    (i : Nat) (d : ModuleDescription) (s : State) (b : Bool)
    (hd : s.modulesDescriptions[i]? = some d) (hJ : Tracked m n0 c0 b s) :
    ∃ b2, Tracked m n0 c0 b2 (configureFrontController.visit (effect env) path i d s).1 ∧
      (b = true → b2 = true) ∧
      (b2 = true → b = true ∨ matchesPath path ⟨false, m⟩ = true) := by
  obtain ⟨h0, huniq, hcount⟩ := hJ
  have hn0 : n0 < s.modulesDescriptions.length := by
    obtain ⟨h, _⟩ := List.getElem?_eq_some.1 h0
    exact h
  have hlt : i < s.modulesDescriptions.length := by
    obtain ⟨h, _⟩ := List.getElem?_eq_some.1 hd
    exact h
  have hsplit : ∀ (e : Event) (l : List Event), e :: l = [e] ++ l := fun _ _ => rfl
  have key := visit_cases env path i d s hd
  have hent := hnr (s.trace ++ [Event.init d.module RequestHandler.express]) d.module
    RequestHandler.express
  have hev := initCalls_events_of_not_webSocket m hty
    (env (s.trace ++ [Event.init d.module RequestHandler.express]) d.module
      RequestHandler.express)
  have hthr : d.module = m →
      (env (s.trace ++ [Event.init d.module RequestHandler.express]) d.module
        RequestHandler.express).throws = false := by
    intro h
    rw [h]
    exact hnf _ _
  generalize env (s.trace ++ [Event.init d.module RequestHandler.express]) d.module
    RequestHandler.express = R at key hent hev hthr
  -- descriptions appended by the `init` call do not hold `m`
  have happ : ∀ (l : List ModuleDescription), l.length = s.modulesDescriptions.length →
      (∀ (j : Nat) (x : ModuleDescription), l[j]? = some x → x.module = m → j = n0) →
      ∀ (j : Nat) (x : ModuleDescription), (l ++ R.entries)[j]? = some x → x.module = m →
        j = n0 := by
    intro l hl hu j x hx hxm
    by_cases hj : j < l.length
    · rw [List.getElem?_append_left hj] at hx
      exact hu j x hx hxm
    · rw [List.getElem?_append_right (by omega)] at hx
      exact absurd hxm (hent x (List.mem_iff_getElem?.2 ⟨_, hx⟩))
  rcases key with ⟨_, hv⟩ | ⟨hm, hi, ht, hv⟩ | ⟨hm, hi, ht, hv⟩
  · rw [hv]
    exact ⟨b, ⟨h0, huniq, hcount⟩, id, Or.inl⟩
  · have hne : d.module ≠ m := by
      intro hdm
      rw [hthr hdm] at ht
      exact absurd ht (by simp)
    rw [hv]
    refine ⟨b, ⟨?_, ?_, ?_⟩, id, Or.inl⟩
    · simp only
      rw [List.getElem?_append_left hn0]
      exact h0
    · exact happ _ rfl huniq
    · simp only
      rw [hsplit, initCalls_append, initCalls_append, initCalls_init_of_ne m d.module _ hne,
        hev, hcount]
      simp
  · by_cases hin : i = n0
    · subst hin
      rw [h0] at hd
      simp only [Option.some.injEq] at hd
      subst hd
      simp only at hi hm
      subst hi
      rw [hv]
      refine ⟨true, ⟨?_, ?_, ?_⟩, fun _ => rfl, fun _ => Or.inr hm⟩
      · simp only
        rw [List.getElem?_append_left (by simpa using hn0), List.getElem?_set_self hn0]
      · apply happ _ (by simp)
        intro j x hx hxm
        by_cases hji : i = j
        · exact hji.symm
        · rw [List.getElem?_set_ne hji] at hx
          exact huniq j x hx hxm
      · simp only
        rw [hsplit, initCalls_append, initCalls_append, initCalls_init_self, hev, hcount]
        simp
    · have hne : d.module ≠ m := fun hdm => hin (huniq i d hd hdm)
      rw [hv]
      refine ⟨b, ⟨?_, ?_, ?_⟩, id, Or.inl⟩
      · simp only
        rw [List.getElem?_append_left (by simpa using hn0), List.getElem?_set_ne hin]
        exact h0
      · apply happ _ (by simp)
        intro j x hx hxm
        by_cases hji : i = j
        · subst hji
          rw [List.getElem?_set_self hlt] at hx
          simp only [Option.some.injEq] at hx
          subst hx
          exact absurd hxm hne
        · rw [List.getElem?_set_ne hji] at hx
          exact huniq j x hx hxm
      · simp only
        rw [hsplit, initCalls_append, initCalls_append, initCalls_init_of_ne m d.module _ hne,
          hev, hcount]
        simp

theorem serve_nil (init : InitEffect) (k : Nat) (s : State) : serve init k [] s = (s, []) := rfl

theorem serve_cons (init : InitEffect) (k : Nat) (p : String) (ps : List String) (s : State) :
    serve init k (p :: ps) s =
      ((serve init k ps (configureFrontController.handler init p k s).1).1,
        (configureFrontController.handler init p k s).2 ::
          (serve init k ps (configureFrontController.handler init p k s).1).2) := rfl

theorem serve_append (init : InitEffect) (k : Nat) (qs : List String) :
    ∀ (ps : List String) (s : State),
      (serve init k (ps ++ qs) s).1 = (serve init k qs (serve init k ps s).1).1 := by
  intro ps
  induction ps with
  | nil => intro s; rfl
  | cons p ps ih => intro s; simp only [List.cons_append, serve_cons, ih]

/-- One request keeps a module tracked; its flag can only go from false to true,
and only when the path matches the module. -/
theorem handler_tracked (env : InitBehaviour) (path : String) (m : Module) (n0 c0 : Nat)
    (hty : m.serverType ≠ ServerType.WEB_SOCKET)
    (hnf : ∀ (tr : List Event) (h : RequestHandler), (env tr m h).throws = false)
    (hnr : ∀ (tr : List Event) (m2 : Module) (h : RequestHandler),
      ∀ d ∈ (env tr m2 h).entries, d.module ≠ m)
    (k : Nat) (s : State) (b : Bool) (hJ : Tracked m n0 c0 b s) :
    ∃ b2, Tracked m n0 c0 b2 (configureFrontController.handler (effect env) path k s).1 ∧
      (b = true → b2 = true) ∧
      (b2 = true → b = true ∨ matchesPath path ⟨false, m⟩ = true) := by
  apply handler_preserves (effect env) path
    (fun s2 => ∃ b2, Tracked m n0 c0 b2 s2 ∧ (b = true → b2 = true) ∧
      (b2 = true → b = true ∨ matchesPath path ⟨false, m⟩ = true)) _ _ k s
    ⟨b, hJ, id, Or.inl⟩
  · rintro i d s2 hd ⟨b2, hJ2, h1, h2⟩
    obtain ⟨b3, hJ3, h3, h4⟩ := visit_tracked env path m n0 c0 hty hnf hnr i d s2 b2 hd hJ2
    refine ⟨b3, hJ3, fun hb => h3 (h1 hb), ?_⟩
    intro hb3
    rcases h4 hb3 with h5 | h5
    · exact h2 h5
    · exact Or.inr h5
  · rintro s2 ⟨b2, ⟨h0, hu, hc⟩, h1, h2⟩
    exact ⟨b2, ⟨h0, hu, by simp only; rw [initCalls_append, initCalls_next, hc]; rfl⟩, h1, h2⟩

/-- A request that matches a tracked module and returns leaves it initialized. -/
theorem handler_tracked_returned (env : InitBehaviour) (path : String) (m : Module)
    (n0 c0 : Nat) (k : Nat) (s : State) (b2 : Bool)
    (hm : indexOf path m.contextPath = 0)
    (hret : (configureFrontController.handler (effect env) path k s).2 =
      some Completion.returned)
    (hJ : Tracked m n0 c0 b2 (configureFrontController.handler (effect env) path k s).1) :
    b2 = true := by
  have hl := (handler_returned_iff (effect env) path k s).1 hret
  have h0 := hJ.1
  rw [(handler_trace (effect env) path k s).1] at h0
  have := (loop_visited env path k 0 s (fun j d hj => absurd hj (Nat.not_lt_zero j))).2 hl
    n0 ⟨b2, m⟩ h0 ((matchesPath_iff path ⟨b2, m⟩).2 hm)
  exact this

/-- A sequence of requests keeps a module tracked; its flag can only go from
false to true, and only when some request matches the module. -/
theorem serve_tracked (env : InitBehaviour) (m : Module) (n0 c0 : Nat)
    (hty : m.serverType ≠ ServerType.WEB_SOCKET)
    (hnf : ∀ (tr : List Event) (h : RequestHandler), (env tr m h).throws = false)
    (hnr : ∀ (tr : List Event) (m2 : Module) (h : RequestHandler),
      ∀ d ∈ (env tr m2 h).entries, d.module ≠ m)
    (k : Nat) :
    ∀ (ps : List String) (s : State) (b : Bool), Tracked m n0 c0 b s →
      ∃ b2, Tracked m n0 c0 b2 (serve (effect env) k ps s).1 ∧
        (b = true → b2 = true) ∧
        (b2 = true → b = true ∨ ∃ p ∈ ps, indexOf p m.contextPath = 0) := by
  intro ps
  induction ps with
  | nil => intro s b hJ; exact ⟨b, hJ, id, Or.inl⟩
  | cons p ps ih =>
    intro s b hJ
    obtain ⟨b2, hJ2, h1, h2⟩ := handler_tracked env p m n0 c0 hty hnf hnr k s b hJ
    obtain ⟨b3, hJ3, h3, h4⟩ := ih _ b2 hJ2
    rw [serve_cons]
    refine ⟨b3, hJ3, fun hb => h3 (h1 hb), ?_⟩
    intro hb3
    rcases h4 hb3 with h5 | ⟨q, hq, hqm⟩
    · rcases h2 h5 with h6 | h6
      · exact Or.inl h6
      · exact Or.inr ⟨p, List.mem_cons_self _ _, (matchesPath_iff p ⟨false, m⟩).1 h6⟩
    · exact Or.inr ⟨q, List.mem_cons_of_mem _ hq, hqm⟩

/-! ## The claims -/

/-- C9. The match test of line 73, `path.indexOf(contextPath) === 0`, holds
exactly when the context path is a character-wise prefix of the request path;
path segments play no role.  A request for `/apix` matches and activates a module
registered at `/api`; a request for `/ap` does neither. -/
theorem raw_prefix_matching :
    (∀ (path : String) (d : ModuleDescription),
      matchesPath path d = true ↔ d.module.contextPath.data <+: path.data) ∧
    matchesPath "/apix" ⟨false, apiModule⟩ = true ∧
    configureFrontController.handler (effect neverThrows) "/apix" 2
      (register (effect neverThrows) (some apiModule) State.empty).1 =
      (⟨[⟨true, apiModule⟩],
        [Event.log "Registering module /api", Event.init apiModule RequestHandler.express,
          Event.next none]⟩, some Completion.returned) ∧
    matchesPath "/ap" ⟨false, apiModule⟩ = false ∧
    configureFrontController.handler (effect neverThrows) "/ap" 2
      (register (effect neverThrows) (some apiModule) State.empty).1 =
      (⟨[⟨false, apiModule⟩], [Event.log "Registering module /api", Event.next none]⟩,
        some Completion.returned) := by
  refine ⟨?_, by decide, by decide, by decide, by decide⟩
  intro path d
  rw [matchesPath_iff, indexOf_eq_zero_iff]

/-- C3, evaluated on the code.  The web socket module at `/ws` is initialized by
`register`, and the first request for `/ws/chat` initializes it a second time,
now with the Express request handler. -/
theorem webSocket_initialized_twice :
    initCalls wsModule (register (effect neverThrows) (some wsModule) State.empty).1.trace = 1 ∧
    configureFrontController.handler (effect neverThrows) "/ws/chat" 2
      (register (effect neverThrows) (some wsModule) State.empty).1 =
      (⟨[⟨true, wsModule⟩],
        [Event.log "Registering module /ws", Event.init wsModule RequestHandler.webSocket,
          Event.init wsModule RequestHandler.express, Event.next none]⟩,
        some Completion.returned) ∧
    initCalls wsModule (configureFrontController.handler (effect neverThrows) "/ws/chat" 2
      (register (effect neverThrows) (some wsModule) State.empty).1).1.trace = 2 := by
  decide

/-- C4, evaluated on the code.  After `register` of a web socket module, `init`
has been invoked with the web socket request handler, yet the description that
was appended for the module has `initialized == false`.  (The descriptions and
events after it are those of the `register` calls that `init` itself made.) -/
theorem webSocket_registered_uninitialized (env : InitBehaviour) (s : State) (m : Module)
    (h : m.serverType = ServerType.WEB_SOCKET) :
    (register (effect env) (some m) s).1.modulesDescriptions[s.modulesDescriptions.length]? =
      some ⟨false, m⟩ ∧
    (register (effect env) (some m) s).1 =
      ⟨s.modulesDescriptions ++ ⟨false, m⟩ ::
          (env (s.trace ++ [Event.log ("Registering module " ++ m.contextPath),
            Event.init m RequestHandler.webSocket]) m RequestHandler.webSocket).entries,
        s.trace ++ Event.log ("Registering module " ++ m.contextPath) ::
          Event.init m RequestHandler.webSocket ::
          (env (s.trace ++ [Event.log ("Registering module " ++ m.contextPath),
            Event.init m RequestHandler.webSocket]) m RequestHandler.webSocket).events⟩ := by
  rw [register_effect]
  simp only [h, if_true, and_true]
  rw [List.getElem?_append_right (Nat.le_refl _)]
  simp

/-- Witness for C4 on the code: the web socket module at `/ws`, whose `init`
does nothing else. -/
theorem webSocket_registered_uninitialized_witness :
    (register (effect neverThrows) (some wsModule) State.empty).1 =
      ⟨[⟨false, wsModule⟩],
        [Event.log "Registering module /ws", Event.init wsModule RequestHandler.webSocket]⟩ :=
  (webSocket_registered_uninitialized neverThrows State.empty wsModule (by decide)).2

/-- C7, as the code behaves.  `register(null)` throws a `TypeError` at line 129
and changes nothing.  No other module is rejected, whatever its context path,
the empty string included: its description is appended to the list, and
`register` returns, unless the module is a web socket module whose `init`
throws, in which case `register` throws that failure (the description staying
appended). -/
theorem register_validation (env : InitBehaviour) (s : State) :
    register (effect env) none s = (s, Completion.threw Thrown.typeError) ∧
    ∀ m : Module,
      (∃ es, (register (effect env) (some m) s).1.modulesDescriptions =
        s.modulesDescriptions ++ ⟨false, m⟩ :: es) ∧
      (register (effect env) (some m) s).2 =
        if m.serverType = ServerType.WEB_SOCKET ∧
            (env (s.trace ++ [Event.log ("Registering module " ++ m.contextPath),
              Event.init m RequestHandler.webSocket]) m RequestHandler.webSocket).throws = true
        then Completion.threw (Thrown.initError m) else Completion.returned := by
  refine ⟨rfl, ?_⟩
  intro m
  refine ⟨register_descriptions env m s, ?_⟩
  rw [register_effect]
  by_cases hws : m.serverType = ServerType.WEB_SOCKET
  · simp [hws]
  · simp [hws]

/-- C7 as stated fails: registering a module whose context path is empty
returns normally and appends its description. -/
theorem register_accepts_empty_context_path :
    register (effect neverThrows) (some rootModule) State.empty =
      (⟨[⟨false, rootModule⟩], [Event.log "Registering module "]⟩, Completion.returned) := by
  decide

/-- C1, as the code behaves.  After any sequence of `register` calls, a request
whose handler returns has activated every module of the list whose context path
is a prefix of the path, not only the first-registered one: every description
that matches the path is initialized afterwards, and every registered module has
its description in the list.  With `/api` registered first and `/api/v2` second,
both `init`s returning at once, the request for `/api/v2/items` invokes the
`init` of `/api`, then that of `/api/v2`, and leaves both initialized. -/
theorem every_match_activated :
    (∀ (env : InitBehaviour) (ms : List Module) (path : String) (n : Nat),
      (configureFrontController.handler (effect env) path n
        (registerAll (effect env) ms State.empty)).2 = some Completion.returned →
      (∀ d ∈ (configureFrontController.handler (effect env) path n
          (registerAll (effect env) ms State.empty)).1.modulesDescriptions,
        matchesPath path d = true → d.initialized = true) ∧
      (∀ m ∈ ms, ∃ d ∈ (configureFrontController.handler (effect env) path n
          (registerAll (effect env) ms State.empty)).1.modulesDescriptions, d.module = m)) ∧
    (configureFrontController.handler (effect neverThrows) "/api/v2/items" 3
        (registerAll (effect neverThrows) [apiModule, apiV2Module]
          State.empty)).1.modulesDescriptions =
      [⟨true, apiModule⟩, ⟨true, apiV2Module⟩] ∧
    expressInits (configureFrontController.handler (effect neverThrows) "/api/v2/items" 3
        (registerAll (effect neverThrows) [apiModule, apiV2Module] State.empty)).1.trace =
      [apiModule, apiV2Module] := by
  refine ⟨?_, by decide, by decide⟩
  intro env ms path n h
  refine ⟨?_, ?_⟩
  · intro d hd hm
    have hl := (handler_returned_iff (effect env) path n _).1 h
    rw [handler_of_returned (effect env) path n _ hl] at hd
    obtain ⟨j, hj⟩ := List.mem_iff_getElem?.1 hd
    exact (loop_visited env path n 0 _ (fun j d hj => absurd hj (Nat.not_lt_zero j))).2 hl j d
      hj hm
  · intro m hm
    exact handler_keeps_module env path n _ m
      ((registerAll_descriptions env ms State.empty).2 m hm)

/-- Witness for C1 as the code behaves: `/api` then `/api/v2`, request for
`/api/v2/items`. -/
theorem every_match_activated_witness :
    ∀ d ∈ (configureFrontController.handler (effect neverThrows) "/api/v2/items" 3
        (registerAll (effect neverThrows) [apiModule, apiV2Module]
          State.empty)).1.modulesDescriptions,
      matchesPath "/api/v2/items" d = true → d.initialized = true :=
  (every_match_activated.1 neverThrows [apiModule, apiV2Module] "/api/v2/items" 3
    (by decide)).1

/-- C1 as stated fails: with `/api` registered first and `/api/v2` second, both
Express and uninitialized, the request for `/api/v2/items` invokes the `init` of
both, the second one included, and leaves both initialized. -/
theorem second_match_also_activated :
    configureFrontController.handler (effect neverThrows) "/api/v2/items" 3
        (registerAll (effect neverThrows) [apiModule, apiV2Module] State.empty) =
      (⟨[⟨true, apiModule⟩, ⟨true, apiV2Module⟩],
        [Event.log "Registering module /api", Event.log "Registering module /api/v2",
          Event.init apiModule RequestHandler.express,
          Event.init apiV2Module RequestHandler.express, Event.next none]⟩,
        some Completion.returned) := by
  decide

/-- C8, as the code behaves.  Frame of one request, whatever its outcome and
however far its loop has got: the modules of the list stay at their positions and
descriptions are only ever appended after them; when no `init` invoked by the
front controller calls `register`, the modules of the list are exactly the same,
in the same order; a description whose context path is not a prefix of the path
is left as it was; every `init` the front controller invokes is on a module whose
context path is a prefix of the path.  When no description matches, nothing is
initialized, the state is unchanged and `next()` is called once, with no
argument. -/
theorem handler_frame (env : InitBehaviour) (path : String) (n : Nat) (s : State) :
    (∃ extra, (configureFrontController.handler (effect env) path n s).1.modulesDescriptions.map
        (fun d => d.module) = s.modulesDescriptions.map (fun d => d.module) ++ extra) ∧
    ((∀ (tr : List Event) (m : Module), ∃ t, env tr m RequestHandler.express = InitRun.done t) →
      (configureFrontController.handler (effect env) path n s).1.modulesDescriptions.map
        (fun d => d.module) = s.modulesDescriptions.map (fun d => d.module)) ∧
    (∀ (j : Nat) (d : ModuleDescription), s.modulesDescriptions[j]? = some d →
      matchesPath path d = false →
      (configureFrontController.handler (effect env) path n s).1.modulesDescriptions[j]? =
        some d) ∧
    (∃ evs, (configureFrontController.handler (effect env) path n s).1.trace = s.trace ++ evs ∧
      ∀ m ∈ expressInits evs, indexOf path m.contextPath = 0) ∧
    ((∀ d ∈ s.modulesDescriptions, matchesPath path d = false) →
      s.modulesDescriptions.length < n →
      configureFrontController.handler (effect env) path n s =
        (⟨s.modulesDescriptions, s.trace ++ [Event.next none]⟩, some Completion.returned)) := by
  refine ⟨?_, ?_, ?_, ?_, ?_⟩
  · apply handler_preserves (effect env) path
      (fun s2 => ∃ extra, s2.modulesDescriptions.map (fun d => d.module) =
        s.modulesDescriptions.map (fun d => d.module) ++ extra) _ _ n s ⟨[], by simp⟩
    · rintro i d s2 hd ⟨extra, hex⟩
      obtain ⟨es, hes⟩ := visit_modules env path i d s2 hd
      exact ⟨extra ++ es.map (fun x => x.module), by rw [hes, hex, List.append_assoc]⟩
    · intro s2 h2; exact h2
  · intro hq
    apply handler_preserves (effect env) path
      (fun s2 => s2.modulesDescriptions.map (fun d => d.module) =
        s.modulesDescriptions.map (fun d => d.module)) _ _ n s rfl
    · intro i d s2 hd h2
      rw [← h2]
      exact visit_modules_quiet env path i d s2 hd hq
    · intro s2 h2; exact h2
  · apply handler_preserves (effect env) path
      (fun s2 => ∀ (j : Nat) (d : ModuleDescription), s.modulesDescriptions[j]? = some d →
        matchesPath path d = false → s2.modulesDescriptions[j]? = some d) _ _ n s
      (fun j d hj _ => hj)
    · intro i d0 s2 hd0 h2 j d hj hm
      have hj2 := h2 j d hj hm
      by_cases hij : i = j
      · subst hij
        rw [hd0] at hj2
        simp only [Option.some.injEq] at hj2
        subst hj2
        rcases visit_getElem_self env path i d0 s2 hd0 with h1 | ⟨_, h1⟩
        · exact h1
        · rw [hm] at h1; exact absurd h1 (by simp)
      · have hlt : j < s2.modulesDescriptions.length := by
          obtain ⟨h, _⟩ := List.getElem?_eq_some.1 hj2
          exact h
        rw [visit_getElem_ne env path i j d0 s2 hd0 hij hlt]
        exact hj2
    · intro s2 h2; exact h2
  · obtain ⟨evs, h1, _, h3⟩ := loop_trace env path n 0 s
    obtain ⟨_, evs2, h4, h5, _⟩ := handler_trace (effect env) path n s
    refine ⟨evs ++ evs2, by rw [h4, h1, List.append_assoc], ?_⟩
    intro m hm
    rw [expressInits_append, h5, List.append_nil] at hm
    exact h3 m hm
  · intro hall hn
    obtain ⟨k, rfl⟩ : ∃ k, n = k + 1 := ⟨n - 1, by omega⟩
    have hl := loop_of_none_pending (effect env) path k 0 s
      (fun j d _ hj => by rw [hall d (List.mem_iff_getElem?.2 ⟨j, hj⟩)]; rfl) (by omega)
    rw [handler_of_returned _ path _ s (by rw [hl]), hl]

/-- Witness for C8 as the code behaves: `/unknown` matches neither `/api` nor
`/api/v2`. -/
theorem handler_frame_witness :
    configureFrontController.handler (effect alwaysThrows) "/unknown" 3
      ⟨[⟨false, apiModule⟩, ⟨false, apiV2Module⟩], []⟩ =
      (⟨[⟨false, apiModule⟩, ⟨false, apiV2Module⟩], [Event.next none]⟩,
        some Completion.returned) :=
  (handler_frame alwaysThrows "/unknown" 3
    ⟨[⟨false, apiModule⟩, ⟨false, apiV2Module⟩], []⟩).2.2.2.2 (by decide) (by decide)

/-- C8 as stated fails: with `/api` alone in the list and an `init` that
registers `/api/v2`, the request for `/api/x` returns with two descriptions in
the list. -/
theorem list_grows_during_request :
    configureFrontController.handler (effect apiRegistersV2) "/api/x" 3
        ⟨[⟨false, apiModule⟩], []⟩ =
      (⟨[⟨true, apiModule⟩, ⟨false, apiV2Module⟩],
        [Event.init apiModule RequestHandler.express, Event.log "Registering module /api/v2",
          Event.next none]⟩, some Completion.returned) := by
  decide

/-- C6, as the code behaves.  Let the loop of a request reach index `i` without
a failure, find there a pending description `d`, and let `d`'s `init` throw.
Then, given the iterations to get there, the handler completes by throwing that
failure, in the state the `init` call left; the trace holds no `next` call
beyond those that were there before the request; the last `init` invoked by the
front controller is that of `d`; and every description after index `i` is as it
was before the request or, if it was appended during the request, is
uninitialized: the descriptions after the failing one are not visited. -/
theorem init_failure_escapes_handler (env : InitBehaviour) (path : String) (i : Nat)
    (s si : State) (d : ModuleDescription)
    (hreach : configureFrontController.loop (effect env) path i 0 s = (si, none))
    (hd : si.modulesDescriptions[i]? = some d)
    (hm : matchesPath path d = true) (hi : d.initialized = false)
    (ht : (env (si.trace ++ [Event.init d.module RequestHandler.express]) d.module
      RequestHandler.express).throws = true)
    (n : Nat) (hn : i < n) :
    configureFrontController.handler (effect env) path n s =
      (⟨si.modulesDescriptions ++
          (env (si.trace ++ [Event.init d.module RequestHandler.express]) d.module
            RequestHandler.express).entries,
        si.trace ++ Event.init d.module RequestHandler.express ::
          (env (si.trace ++ [Event.init d.module RequestHandler.express]) d.module
            RequestHandler.express).events⟩,
        some (Completion.threw (Thrown.initError d.module))) ∧
    nextCalls (configureFrontController.handler (effect env) path n s).1.trace =
      nextCalls s.trace ∧
    expressInits (configureFrontController.handler (effect env) path n s).1.trace =
      expressInits si.trace ++ [d.module] ∧
    (∀ (j : Nat) (x : ModuleDescription), i < j →
      (configureFrontController.handler (effect env) path n s).1.modulesDescriptions[j]? =
        some x →
      s.modulesDescriptions[j]? = some x ∨
        (s.modulesDescriptions.length ≤ j ∧ x.initialized = false)) := by
  have hsplit : ∀ (e : Event) (l : List Event), e :: l = [e] ++ l := fun _ _ => rfl
  have hsi : (configureFrontController.loop (effect env) path i 0 s).1 = si := by rw [hreach]
  have hlt : i < si.modulesDescriptions.length := by
    obtain ⟨h, _⟩ := List.getElem?_eq_some.1 hd
    exact h
  rw [handler_init_failure env path i s si d hreach hd hm hi ht n hn]
  refine ⟨rfl, ?_, ?_, ?_⟩
  · obtain ⟨evs, h1, h2, _⟩ := loop_trace env path i 0 s
    rw [hsi] at h1
    simp only
    rw [hsplit, nextCalls_append, nextCalls_append, nextCalls_events, h1, nextCalls_append, h2]
    simp [nextCalls]
  · simp only
    rw [hsplit, expressInits_append, expressInits_append, expressInits_events]
    simp [expressInits]
  · intro j x hj hx
    simp only at hx
    by_cases hjl : j < si.modulesDescriptions.length
    · rw [List.getElem?_append_left hjl, ← hsi] at hx
      exact loop_beyond env path i 0 s j x (by omega) hx
    · rw [List.getElem?_append_right (by omega)] at hx
      right
      refine ⟨?_, entries_uninitialized _ x (List.mem_iff_getElem?.2 ⟨_, hx⟩)⟩
      have := loop_length_le env path i 0 s
      rw [hsi] at this
      omega

/-- Witness for C6 as the code behaves: `/api` and `/api/v2` registered, every
`init` throwing, request for `/api/v2/items`. -/
theorem init_failure_escapes_handler_witness :
    configureFrontController.handler (effect alwaysThrows) "/api/v2/items" 3
        ⟨[⟨false, apiModule⟩, ⟨false, apiV2Module⟩], []⟩ =
      (⟨[⟨false, apiModule⟩, ⟨false, apiV2Module⟩] ++
          (alwaysThrows ([] ++ [Event.init apiModule RequestHandler.express]) apiModule
            RequestHandler.express).entries,
        [] ++ Event.init apiModule RequestHandler.express ::
          (alwaysThrows ([] ++ [Event.init apiModule RequestHandler.express]) apiModule
            RequestHandler.express).events⟩,
        some (Completion.threw (Thrown.initError apiModule))) :=
  (init_failure_escapes_handler alwaysThrows "/api/v2/items" 0
    ⟨[⟨false, apiModule⟩, ⟨false, apiV2Module⟩], []⟩
    ⟨[⟨false, apiModule⟩, ⟨false, apiV2Module⟩], []⟩ ⟨false, apiModule⟩
    (by decide) (by decide) (by decide) (by decide) (by decide) 3 (by decide)).1

/-- C6 as stated fails: with `/api` and `/api/v2` registered and the `init` of
`/api` throwing, the handler invocation for `/api/v2/items` completes by
throwing; `next` is never called, with or without an argument, and `/api/v2` is
not visited. -/
theorem init_failure_not_passed_to_next :
    configureFrontController.handler (effect alwaysThrows) "/api/v2/items" 3
        (registerAll (effect alwaysThrows) [apiModule, apiV2Module] State.empty) =
      (⟨[⟨false, apiModule⟩, ⟨false, apiV2Module⟩],
        [Event.log "Registering module /api", Event.log "Registering module /api/v2",
          Event.init apiModule RequestHandler.express]⟩,
        some (Completion.threw (Thrown.initError apiModule))) ∧
    nextCalls (configureFrontController.handler (effect alwaysThrows) "/api/v2/items" 3
      (registerAll (effect alwaysThrows) [apiModule, apiV2Module] State.empty)).1.trace = [] := by
  decide

/-- C5, as the code behaves.  Let the loop of a request for `path` reach index
`i` without a failure, find there an uninitialized matching description `d`, and
let `d`'s `init` throw; let `s1` be the state after that request.  Then `d` is
still at index `i` with `initialized == false`; a following request whose path
matches `d` invokes `d`'s `init` again provided no `init` of a description
before `d` throws during that request (its loop gets to index `i`); and this
proviso always holds when the same path is requested again. -/
theorem init_failure_not_committed (env : InitBehaviour) (path : String) (i : Nat)
    (s si s1 : State) (d : ModuleDescription)
    (hreach : configureFrontController.loop (effect env) path i 0 s = (si, none))
    (hd : si.modulesDescriptions[i]? = some d)
    (hm : matchesPath path d = true) (hi : d.initialized = false)
    (ht : (env (si.trace ++ [Event.init d.module RequestHandler.express]) d.module
      RequestHandler.express).throws = true)
    (n : Nat) (hn : i < n)
    (hs1 : (configureFrontController.handler (effect env) path n s).1 = s1) :
    s1.modulesDescriptions[i]? = some d ∧
    (∀ (path2 : String) (k : Nat), matchesPath path2 d = true → i < k →
      (configureFrontController.loop (effect env) path2 i 0 s1).2 = none →
      initCalls d.module s1.trace + 1 ≤
        initCalls d.module (configureFrontController.handler (effect env) path2 k s1).1.trace) ∧
    (∀ k : Nat, i < k →
      initCalls d.module s1.trace + 1 ≤
        initCalls d.module (configureFrontController.handler (effect env) path k s1).1.trace) := by
  have hsi : (configureFrontController.loop (effect env) path i 0 s).1 = si := by rw [hreach]
  have hlt : i < si.modulesDescriptions.length := by
    obtain ⟨h, _⟩ := List.getElem?_eq_some.1 hd
    exact h
  rw [handler_init_failure env path i s si d hreach hd hm hi ht n hn] at hs1
  have hmds : s1.modulesDescriptions = si.modulesDescriptions ++
      (env (si.trace ++ [Event.init d.module RequestHandler.express]) d.module
        RequestHandler.express).entries := by
    rw [← hs1]
  have hget : ∀ j : Nat, j ≤ i → s1.modulesDescriptions[j]? = si.modulesDescriptions[j]? := by
    intro j hj
    rw [hmds, List.getElem?_append_left (by omega)]
  have hd1 : s1.modulesDescriptions[i]? = some d := by rw [hget i (Nat.le_refl _)]; exact hd
  have hlt1 : i < s1.modulesDescriptions.length := by
    obtain ⟨h, _⟩ := List.getElem?_eq_some.1 hd1
    exact h
  have key : ∀ (path2 : String) (k : Nat), matchesPath path2 d = true → i < k →
      (configureFrontController.loop (effect env) path2 i 0 s1).2 = none →
      initCalls d.module s1.trace + 1 ≤
        initCalls d.module (configureFrontController.handler (effect env) path2 k s1).1.trace := by
    intro path2 k hm2 hk hnone
    obtain ⟨c, rfl⟩ : ∃ c, k = i + (c + 1) := ⟨k - i - 1, by omega⟩
    obtain ⟨_, evs3, h3, _, _⟩ := handler_trace (effect env) path2 (i + (c + 1)) s1
    rw [h3, loop_add]
    simp only [hnone, if_true, Nat.zero_add]
    have hd2 : (configureFrontController.loop (effect env) path2 i 0
        s1).1.modulesDescriptions[i]? = some d := by
      rw [loop_untouched env path2 i 0 s1 i (by omega) hlt1]
      exact hd1
    obtain ⟨evs1, h1, _⟩ := loop_trace env path2 i 0 s1
    obtain ⟨evs2, h2⟩ := loop_at_pending env path2 i _ d hd2 hm2 hi c
    rw [h2, h1]
    simp only [initCalls_append, initCalls_init_self]
    omega
  refine ⟨hd1, key, ?_⟩
  intro k hk
  apply key path k hm hk
  rw [loop_of_none_pending_upto (effect env) path i 0 s1 _ (by omega)]
  intro j x _ hj hx
  rw [hget j (by omega), ← hsi] at hx
  have hvis := (loop_visited env path i 0 s
    (fun j d hj => absurd hj (Nat.not_lt_zero j))).1 (by rw [hreach]) j x (by omega) hx
  by_cases hmx : matchesPath path x = true
  · simp [hmx, hvis hmx]
  · simp [hmx]

/-- Witness for C5 as the code behaves: `/a/b` then `/a` in the list, every
`init` throwing, request for `/a/x`, then the same request again. -/
theorem init_failure_not_committed_witness :
    (State.mk [⟨false, deepModule⟩, ⟨false, shallowModule⟩]
        [Event.init shallowModule RequestHandler.express]).modulesDescriptions[1]? =
      some ⟨false, shallowModule⟩ ∧
    initCalls shallowModule [Event.init shallowModule RequestHandler.express] + 1 ≤
      initCalls shallowModule (configureFrontController.handler (effect alwaysThrows) "/a/x" 3
        ⟨[⟨false, deepModule⟩, ⟨false, shallowModule⟩],
          [Event.init shallowModule RequestHandler.express]⟩).1.trace :=
  ⟨(init_failure_not_committed alwaysThrows "/a/x" 1
      ⟨[⟨false, deepModule⟩, ⟨false, shallowModule⟩], []⟩
      ⟨[⟨false, deepModule⟩, ⟨false, shallowModule⟩], []⟩
      ⟨[⟨false, deepModule⟩, ⟨false, shallowModule⟩],
        [Event.init shallowModule RequestHandler.express]⟩
      ⟨false, shallowModule⟩
      (by decide) (by decide) (by decide) (by decide) (by decide) 3 (by decide)
      (by decide)).1,
    (init_failure_not_committed alwaysThrows "/a/x" 1
      ⟨[⟨false, deepModule⟩, ⟨false, shallowModule⟩], []⟩
      ⟨[⟨false, deepModule⟩, ⟨false, shallowModule⟩], []⟩
      ⟨[⟨false, deepModule⟩, ⟨false, shallowModule⟩],
        [Event.init shallowModule RequestHandler.express]⟩
      ⟨false, shallowModule⟩
      (by decide) (by decide) (by decide) (by decide) (by decide) 3 (by decide)
      (by decide)).2.2 3 (by decide)⟩

/-- C5 as stated fails: `/a/b` registered first and `/a` second, every `init`
throwing.  The request for `/a/x` fails in the `init` of `/a`.  The next request,
for `/a/b`, matches the context path `/a`, but it fails in the `init` of `/a/b`
and the `init` of `/a` is not invoked again. -/
theorem retry_blocked_by_earlier_failure :
    configureFrontController.handler (effect alwaysThrows) "/a/x" 3
        (registerAll (effect alwaysThrows) [deepModule, shallowModule] State.empty) =
      (⟨[⟨false, deepModule⟩, ⟨false, shallowModule⟩],
        [Event.log "Registering module /a/b", Event.log "Registering module /a",
          Event.init shallowModule RequestHandler.express]⟩,
        some (Completion.threw (Thrown.initError shallowModule))) ∧
    matchesPath "/a/b" ⟨false, shallowModule⟩ = true ∧
    configureFrontController.handler (effect alwaysThrows) "/a/b" 3
        (configureFrontController.handler (effect alwaysThrows) "/a/x" 3
          (registerAll (effect alwaysThrows) [deepModule, shallowModule] State.empty)).1 =
      (⟨[⟨false, deepModule⟩, ⟨false, shallowModule⟩],
        [Event.log "Registering module /a/b", Event.log "Registering module /a",
          Event.init shallowModule RequestHandler.express,
          Event.init deepModule RequestHandler.express]⟩,
        some (Completion.threw (Thrown.initError deepModule))) := by
  decide

/-- C10, as the code behaves.  Let no `init` invoked during the request throw or
call `register`.  Then the handler, given the iterations to go through the list,
returns; every description has become its activated form, so every description
whose context path is a prefix of the path is initialized; and the request's
events are the `init` calls on the descriptions that matched and were not
initialized before, one per description and in list order, followed by exactly
one `next()`. -/
theorem handled_request_postcondition (env : InitBehaviour) (path : String) (s : State)
    (hq : ∀ (pre : List ModuleDescription) (d : ModuleDescription)
      (post : List ModuleDescription),
      pending path s.modulesDescriptions = pre ++ d :: post →
      env (s.trace ++ initEvents (pre ++ [d])) d.module RequestHandler.express =
        InitRun.done false)
    (n : Nat) (hn : s.modulesDescriptions.length < n) :
    configureFrontController.handler (effect env) path n s =
      (⟨s.modulesDescriptions.map (activate path),
        s.trace ++ initEvents (pending path s.modulesDescriptions) ++ [Event.next none]⟩,
        some Completion.returned) ∧
    (∀ d ∈ (configureFrontController.handler (effect env) path n s).1.modulesDescriptions,
      matchesPath path d = true → d.initialized = true) := by
  obtain ⟨k, rfl⟩ : ∃ k, n = k + 1 := ⟨n - 1, by omega⟩
  have hl := loop_quiet env path s.modulesDescriptions [] s.trace k hq (by omega)
  simp only [List.length_nil, List.nil_append] at hl
  have hh : configureFrontController.handler (effect env) path (k + 1) s =
      (⟨s.modulesDescriptions.map (activate path),
        s.trace ++ initEvents (pending path s.modulesDescriptions) ++ [Event.next none]⟩,
        some Completion.returned) := by
    rw [handler_of_returned _ path _ s (by rw [hl]), hl]
  rw [hh]
  refine ⟨rfl, ?_⟩
  intro d hd hm
  obtain ⟨d0, _, rfl⟩ := List.mem_map.1 hd
  unfold activate at hm ⊢
  by_cases hm0 : matchesPath path d0 = true
  · simp [hm0]
  · simp only [hm0, Bool.false_eq_true, if_false] at hm

/-- Witness for C10 as the code behaves: `/api` and `/api/v2` in the list, `/api`
already initialized, request for `/api/v2/items`. -/
theorem handled_request_postcondition_witness :
    configureFrontController.handler (effect neverThrows) "/api/v2/items" 3
        ⟨[⟨true, apiModule⟩, ⟨false, apiV2Module⟩], []⟩ =
      (⟨[⟨true, apiModule⟩, ⟨false, apiV2Module⟩].map (activate "/api/v2/items"),
        [] ++ initEvents (pending "/api/v2/items" [⟨true, apiModule⟩, ⟨false, apiV2Module⟩]) ++
          [Event.next none]⟩, some Completion.returned) :=
  (handled_request_postcondition neverThrows "/api/v2/items"
    ⟨[⟨true, apiModule⟩, ⟨false, apiV2Module⟩], []⟩ (fun _ _ _ _ => rfl) 3 (by decide)).1

/-- C10 as stated fails: with `/api` alone in the list and an `init` that
registers `/api/v2`, no `init` throws and the request for `/api/v2/items`
returns, but `init` has also been invoked on `/api/v2`, which was not in the list
before the request: the only description that matched and was uninitialized
beforehand is that of `/api`. -/
theorem registered_during_request_also_initialized :
    configureFrontController.handler (effect apiRegistersV2) "/api/v2/items" 3
        ⟨[⟨false, apiModule⟩], []⟩ =
      (⟨[⟨true, apiModule⟩, ⟨true, apiV2Module⟩],
        [Event.init apiModule RequestHandler.express, Event.log "Registering module /api/v2",
          Event.init apiV2Module RequestHandler.express, Event.next none]⟩,
        some Completion.returned) ∧
    pending "/api/v2/items" [⟨false, apiModule⟩] = [⟨false, apiModule⟩] := by
  decide

/-- C2, as the code behaves.  Let `m` be an Express module whose `init` never
throws, with no description in the list before `register(m)` and registered by no
`init`.  `register(m)` does not invoke `m.init` and appends `m`'s description
uninitialized.  After any sequence of requests, whatever their outcomes, `m`'s
description is still at its index, and `m.init` has been invoked once if its flag
is true and not at all otherwise, so never more than once; the flag can be true
only if some request had a path prefixed by `m`'s context path.  When a request
with such a path returns, then at that moment, and after every later request,
the flag is true and `m.init` has been invoked exactly once. -/
theorem lazy_activation_once (env : InitBehaviour) (s0 : State) (m : Module) (k : Nat)
    (hfresh : ∀ d ∈ s0.modulesDescriptions, d.module ≠ m)
    (hty : m.serverType = ServerType.EXPRESS)
    (hnf : ∀ (tr : List Event) (h : RequestHandler), (env tr m h).throws = false)
    (hnr : ∀ (tr : List Event) (m2 : Module) (h : RequestHandler),
      ∀ d ∈ (env tr m2 h).entries, d.module ≠ m) :
    initCalls m (register (effect env) (some m) s0).1.trace = initCalls m s0.trace ∧
    (register (effect env) (some m) s0).1.modulesDescriptions =
      s0.modulesDescriptions ++ [⟨false, m⟩] ∧
    (∀ ps : List String, ∃ b : Bool,
      (serve (effect env) k ps (register (effect env) (some m) s0).1).1.modulesDescriptions[
          s0.modulesDescriptions.length]? = some ⟨b, m⟩ ∧
      initCalls m (serve (effect env) k ps (register (effect env) (some m) s0).1).1.trace =
        initCalls m s0.trace + (if b = true then 1 else 0) ∧
      (b = true → ∃ p ∈ ps, indexOf p m.contextPath = 0)) ∧
    (∀ (ps : List String) (p : String) (qs : List String),
      indexOf p m.contextPath = 0 →
      (configureFrontController.handler (effect env) p k
        (serve (effect env) k ps (register (effect env) (some m) s0).1).1).2 =
        some Completion.returned →
      (serve (effect env) k (ps ++ p :: qs)
          (register (effect env) (some m) s0).1).1.modulesDescriptions[
          s0.modulesDescriptions.length]? = some ⟨true, m⟩ ∧
      initCalls m (serve (effect env) k (ps ++ p :: qs)
          (register (effect env) (some m) s0).1).1.trace = initCalls m s0.trace + 1) := by
  have hws : m.serverType ≠ ServerType.WEB_SOCKET := by
    rw [hty]; decide
  have hreg : register (effect env) (some m) s0 =
      (⟨s0.modulesDescriptions ++ [⟨false, m⟩],
        s0.trace ++ [Event.log ("Registering module " ++ m.contextPath)]⟩,
        Completion.returned) := by
    rw [register_effect]
    simp [hws]
  rw [hreg]
  have hc0 : initCalls m (s0.trace ++ [Event.log ("Registering module " ++ m.contextPath)]) =
      initCalls m s0.trace := by
    rw [initCalls_append, initCalls_log]; rfl
  have hJ : Tracked m s0.modulesDescriptions.length (initCalls m s0.trace) false
      ⟨s0.modulesDescriptions ++ [⟨false, m⟩],
        s0.trace ++ [Event.log ("Registering module " ++ m.contextPath)]⟩ := by
    refine ⟨?_, ?_, ?_⟩
    · simp only
      rw [List.getElem?_append_right (Nat.le_refl _)]
      simp
    · intro j d hj hdm
      simp only at hj
      by_cases hjl : j < s0.modulesDescriptions.length
      · rw [List.getElem?_append_left hjl] at hj
        exact absurd hdm (hfresh d (List.mem_iff_getElem?.2 ⟨j, hj⟩))
      · have hlt : j < (s0.modulesDescriptions ++ [(⟨false, m⟩ : ModuleDescription)]).length := by
          obtain ⟨h, _⟩ := List.getElem?_eq_some.1 hj
          exact h
        simp at hlt
        omega
    · simp only
      rw [hc0]
      simp
  refine ⟨hc0, rfl, ?_, ?_⟩
  · intro ps
    obtain ⟨b, ⟨h0, _, hc⟩, _, h2⟩ := serve_tracked env m _ _ hws hnf hnr k ps _ false hJ
    refine ⟨b, h0, hc, ?_⟩
    intro hb
    rcases h2 hb with h3 | h3
    · exact absurd h3 (by simp)
    · exact h3
  · intro ps p qs hp hret
    obtain ⟨b, hJ1, _, _⟩ := serve_tracked env m _ _ hws hnf hnr k ps _ false hJ
    obtain ⟨b2, hJ2, _, _⟩ := handler_tracked env p m _ _ hws hnf hnr k _ b hJ1
    have hb2 : b2 = true := handler_tracked_returned env p m _ _ k _ b2 hp hret hJ2
    subst hb2
    obtain ⟨b3, ⟨h0, _, hc⟩, h3, _⟩ := serve_tracked env m _ _ hws hnf hnr k qs _ true hJ2
    have hb3 : b3 = true := h3 rfl
    subst hb3
    have hs : (serve (effect env) k (ps ++ p :: qs)
        ⟨s0.modulesDescriptions ++ [⟨false, m⟩],
          s0.trace ++ [Event.log ("Registering module " ++ m.contextPath)]⟩).1 =
        (serve (effect env) k qs (configureFrontController.handler (effect env) p k
          (serve (effect env) k ps
            ⟨s0.modulesDescriptions ++ [⟨false, m⟩],
              s0.trace ++ [Event.log ("Registering module " ++ m.contextPath)]⟩).1).1).1 := by
      rw [serve_append, serve_cons]
    rw [hs]
    exact ⟨h0, by rw [hc]; simp⟩

/-- Witness for C2 as the code behaves: `/api` registered, then `/api/v2`
registered and requests for `/other`, `/api/v2/items`, `/api/v2` and
`/api/v2/items` again. -/
theorem lazy_activation_once_witness :
    initCalls apiV2Module
        (serve (effect neverThrows) 3 ([] ++ "/api/v2/items" :: ["/api/v2", "/api/v2/items"])
          (register (effect neverThrows) (some apiV2Module)
            (register (effect neverThrows) (some apiModule) State.empty).1).1).1.trace =
      initCalls apiV2Module (register (effect neverThrows) (some apiModule) State.empty).1.trace +
        1 :=
  ((lazy_activation_once neverThrows (register (effect neverThrows) (some apiModule) State.empty).1
    apiV2Module 3 (by decide) (by decide) (fun _ _ => rfl)
    (fun _ _ _ d hd => absurd hd (List.not_mem_nil d))).2.2.2
      [] "/api/v2/items" ["/api/v2", "/api/v2/items"] (by decide) (by decide)).2

/-- C2 as stated fails.  First, `/a`, whose `init` throws, is registered before
`/a/b`, whose `init` never throws: each of the three following requests has a
path prefixed by `/a/b` and is aborted by the failure of `/a`'s `init`; the
`init` of `/a/b` has not been invoked at all, and its description is still
uninitialized.  Second, a module with two descriptions in the list has its `init`
invoked twice by one matching request: when `/api` is registered twice, and when
`/api/v2`, already registered, is registered again by the `init` of `/api`. -/
theorem never_activated_behind_failing_module :
    serve (effect shallowThrows) 3 ["/a/b/1", "/a/b/2", "/a/b"]
        (register (effect shallowThrows) (some deepModule)
          (register (effect shallowThrows) (some shallowModule) State.empty).1).1 =
      (⟨[⟨false, shallowModule⟩, ⟨false, deepModule⟩],
        [Event.log "Registering module /a", Event.log "Registering module /a/b",
          Event.init shallowModule RequestHandler.express,
          Event.init shallowModule RequestHandler.express,
          Event.init shallowModule RequestHandler.express]⟩,
        [some (Completion.threw (Thrown.initError shallowModule)),
          some (Completion.threw (Thrown.initError shallowModule)),
          some (Completion.threw (Thrown.initError shallowModule))]) ∧
    initCalls deepModule
      (serve (effect shallowThrows) 3 ["/a/b/1", "/a/b/2", "/a/b"]
        (register (effect shallowThrows) (some deepModule)
          (register (effect shallowThrows) (some shallowModule) State.empty).1).1).1.trace = 0 ∧
    (∀ (tr : List Event) (h : RequestHandler), (shallowThrows tr deepModule h).throws = false) ∧
    initCalls apiModule
      (configureFrontController.handler (effect neverThrows) "/api/x" 3
        (registerAll (effect neverThrows) [apiModule, apiModule] State.empty)).1.trace = 2 ∧
    initCalls apiV2Module
      (configureFrontController.handler (effect apiRegistersV2) "/api/v2/x" 4
        (registerAll (effect apiRegistersV2) [apiModule, apiV2Module] State.empty)).1.trace =
      2 := by
  refine ⟨by decide, by decide, ?_, by decide, by decide⟩
  intro tr h
  rfl

end WebModules
